import Mathlib

/-
  Verification of the redis-lmdb core against its specification.

  The definitions below are shallow embeddings of the JavaScript source:
  the RESP codec (resp.js), the storage engine adapter with its
  transaction manager and scan cursor registry (store.js, whose text is
  embedded at the end of scripts/mmap-performance-test.js), the command
  handlers under src/commands/, and the per-connection dispatcher
  (server.js).  JavaScript strings are modelled as Lean strings where
  only the character sequence matters, and as lists of UTF-16 code
  units (List Nat) where the byte-level wire format is at stake; Node
  buffers are lists of bytes (List Nat).
-/

set_option maxHeartbeats 1000000

namespace RedisLmdb

/-! ## Generic association-list operations

JavaScript `Map` objects (the cache, the active-transaction table and
the scan-cursor registry) are modelled as association lists.  `aset`
replaces the first binding of the key or appends a new one, matching
`Map.set` on maps whose keys are unique; `aerase` models `Map.delete`. -/

def alookup {α β : Type} [DecidableEq α] : List (α × β) → α → Option β
  | [], _ => none
  | (k, v) :: rest, key => if k = key then some v else alookup rest key

def aset {α β : Type} [DecidableEq α] : List (α × β) → α → β → List (α × β)
  | [], key, val => [(key, val)]
  | (k, v) :: rest, key, val =>
    if k = key then (key, val) :: rest else (k, v) :: aset rest key val

def aerase {α β : Type} [DecidableEq α] : List (α × β) → α → List (α × β)
  | [], _ => []
  | (k, v) :: rest, key => if k = key then rest else (k, v) :: aerase rest key

theorem alookup_aset_self {α β : Type} [DecidableEq α]
    (l : List (α × β)) (k : α) (v : β) : alookup (aset l k v) k = some v := by
  induction l with
  | nil => simp [aset, alookup]
  | cons hd tl ih =>
    obtain ⟨k', v'⟩ := hd
    by_cases h : k' = k
    · subst h; simp [aset, alookup]
    · simp [aset, alookup, h, ih]

theorem alookup_aset_other {α β : Type} [DecidableEq α]
    (l : List (α × β)) (k k' : α) (v : β) (h : k' ≠ k) :
    alookup (aset l k v) k' = alookup l k' := by
  have hk : k ≠ k' := fun hkk => h hkk.symm
  induction l with
  | nil => simp [aset, alookup, hk]
  | cons hd tl ih =>
    obtain ⟨k0, v0⟩ := hd
    by_cases h0 : k0 = k
    · subst h0
      simp [aset, alookup, hk]
    · by_cases h1 : k0 = k'
      · subst h1; simp [aset, alookup, h0]
      · simp [aset, alookup, h0, h1, ih]

theorem alookup_aerase_other {α β : Type} [DecidableEq α]
    (l : List (α × β)) (k k' : α) (h : k' ≠ k) :
    alookup (aerase l k) k' = alookup l k' := by
  have hk : k ≠ k' := fun hkk => h hkk.symm
  induction l with
  | nil => simp [aerase]
  | cons hd tl ih =>
    obtain ⟨k0, v0⟩ := hd
    by_cases h0 : k0 = k
    · subst h0
      simp [aerase, alookup, hk]
    · by_cases h1 : k0 = k'
      · subst h1; simp [aerase, alookup, h0]
      · simp [aerase, alookup, h0, h1, ih]

theorem alookup_eq_none_of_not_mem {α β : Type} [DecidableEq α]
    (l : List (α × β)) (k : α) (h : k ∉ l.map Prod.fst) :
    alookup l k = none := by
  induction l with
  | nil => simp [alookup]
  | cons hd tl ih =>
    obtain ⟨k0, v0⟩ := hd
    simp only [List.map_cons, List.mem_cons] at h
    push_neg at h
    simp only [alookup, if_neg (fun hh : k0 = k => h.1 hh.symm)]
    exact ih h.2

theorem alookup_aerase_self {α β : Type} [DecidableEq α]
    (l : List (α × β)) (k : α) (hnd : (l.map Prod.fst).Nodup) :
    alookup (aerase l k) k = none := by
  induction l with
  | nil => simp [aerase, alookup]
  | cons hd tl ih =>
    obtain ⟨k0, v0⟩ := hd
    simp only [List.map_cons, List.nodup_cons] at hnd
    by_cases h0 : k0 = k
    · subst h0
      simp only [aerase, if_pos rfl]
      exact alookup_eq_none_of_not_mem tl k0 hnd.1
    · simp [aerase, alookup, h0, ih hnd.2]

theorem mem_aset_keys {α β : Type} [DecidableEq α]
    (l : List (α × β)) (k ka : α) (v : β)
    (hka : ka ∈ (aset l k v).map Prod.fst) :
    ka ∈ l.map Prod.fst ∨ ka = k := by
  induction l with
  | nil =>
    simp only [aset, List.map_cons, List.map_nil, List.mem_singleton] at hka
    exact Or.inr hka
  | cons hd tl ih =>
    obtain ⟨k2, v2⟩ := hd
    by_cases h2 : k2 = k
    · rw [show aset ((k2, v2) :: tl) k v = (k, v) :: tl from by simp [aset, h2]] at hka
      simp only [List.map_cons, List.mem_cons] at hka
      rcases hka with h | h
      · exact Or.inr h
      · exact Or.inl (by simp only [List.map_cons, List.mem_cons]; exact Or.inr h)
    · rw [show aset ((k2, v2) :: tl) k v = (k2, v2) :: aset tl k v from by
        simp [aset, h2]] at hka
      simp only [List.map_cons, List.mem_cons] at hka
      rcases hka with h | h
      · exact Or.inl (by simp only [List.map_cons, List.mem_cons]; exact Or.inl h)
      · rcases ih h with h' | h'
        · exact Or.inl (by simp only [List.map_cons, List.mem_cons]; exact Or.inr h')
        · exact Or.inr h'

theorem aset_keys_nodup {α β : Type} [DecidableEq α]
    (l : List (α × β)) (k : α) (v : β) (hnd : (l.map Prod.fst).Nodup) :
    ((aset l k v).map Prod.fst).Nodup := by
  induction l with
  | nil => simp [aset]
  | cons hd tl ih =>
    obtain ⟨k0, v0⟩ := hd
    simp only [List.map_cons, List.nodup_cons] at hnd
    by_cases h0 : k0 = k
    · subst h0
      simpa [aset] using hnd
    · have hmem : k0 ∉ (aset tl k v).map Prod.fst := by
        intro hm
        rcases mem_aset_keys tl k k0 v hm with h | h
        · exact hnd.1 h
        · exact h0 h
      simp only [aset, if_neg h0, List.map_cons, List.nodup_cons]
      exact ⟨hmem, ih hnd.2⟩

theorem aerase_keys_sublist {α β : Type} [DecidableEq α]
    (l : List (α × β)) (k : α) :
    ((aerase l k).map Prod.fst).Sublist (l.map Prod.fst) := by
  induction l with
  | nil => simp [aerase]
  | cons hd tl ih =>
    obtain ⟨k0, v0⟩ := hd
    by_cases h0 : k0 = k
    · subst h0
      simp only [aerase, if_pos rfl, List.map_cons]
      exact List.sublist_cons_self _ _
    · simp only [aerase, if_neg h0, List.map_cons]
      exact ih.cons₂ _

theorem aerase_keys_nodup {α β : Type} [DecidableEq α]
    (l : List (α × β)) (k : α) (hnd : (l.map Prod.fst).Nodup) :
    ((aerase l k).map Prod.fst).Nodup :=
  (aerase_keys_sublist l k).nodup hnd

/-! ## Decimal rendering and JavaScript parseInt

`natDigits n` is the ASCII byte sequence produced by JavaScript when a
non-negative integer is interpolated into a template string.
`jsParseIntB` models the behavior of `parseInt(x, 10)`: skip leading
whitespace, accept one optional sign, then read a maximal run of
decimal digits; if that run is empty the result is NaN (here `none`). -/

def natDigitsAux : Nat → Nat → List Nat
  | 0, _ => []
  | fuel + 1, n => if n = 0 then [] else natDigitsAux fuel (n / 10) ++ [48 + n % 10]

def natDigits (n : Nat) : List Nat :=
  if n = 0 then [48] else natDigitsAux n n

def isDigitB (b : Nat) : Bool := 48 ≤ b && b ≤ 57

def isJsSpace (b : Nat) : Bool :=
  b = 32 || b = 9 || b = 10 || b = 13 || b = 11 || b = 12

def parseDigitsGo : List Nat → Nat → Nat
  | [], acc => acc
  | b :: rest, acc => if isDigitB b then parseDigitsGo rest (acc * 10 + (b - 48)) else acc

def parseDigitsB : List Nat → Option Nat
  | [] => none
  | b :: rest => if isDigitB b then some (parseDigitsGo (b :: rest) 0) else none

def jsParseIntB (l : List Nat) : Option Int :=
  match l.dropWhile isJsSpace with
  | [] => none
  | b :: rest =>
    if b = 45 then (parseDigitsB rest).map (fun n => -(n : Int))
    else if b = 43 then (parseDigitsB rest).map (fun n => (n : Int))
    else (parseDigitsB (b :: rest)).map (fun n => (n : Int))

def jsParseIntStr (s : String) : Option Int :=
  jsParseIntB (s.data.map Char.toNat)

theorem natDigitsAux_bounds (fuel n : Nat) :
    ∀ b ∈ natDigitsAux fuel n, 48 ≤ b ∧ b ≤ 57 := by
  induction fuel generalizing n with
  | zero => simp [natDigitsAux]
  | succ fuel ih =>
    intro b hb
    by_cases h : n = 0
    · simp [natDigitsAux, h] at hb
    · simp only [natDigitsAux, if_neg h, List.mem_append, List.mem_singleton] at hb
      rcases hb with hb | hb
      · exact ih _ b hb
      · subst hb
        have : n % 10 < 10 := Nat.mod_lt _ (by omega)
        omega

theorem natDigits_bounds (n : Nat) : ∀ b ∈ natDigits n, 48 ≤ b ∧ b ≤ 57 := by
  intro b hb
  by_cases h : n = 0
  · simp [natDigits, h] at hb; omega
  · simp only [natDigits, if_neg h] at hb
    exact natDigitsAux_bounds n n b hb

theorem parseDigitsGo_append_digit (l : List Nat) (b : Nat)
    (hl : ∀ x ∈ l, isDigitB x = true) (hb : isDigitB b = true) (acc : Nat) :
    parseDigitsGo (l ++ [b]) acc = parseDigitsGo l acc * 10 + (b - 48) := by
  induction l generalizing acc with
  | nil => simp [parseDigitsGo, hb]
  | cons hd tl ih =>
    have hhd : isDigitB hd = true := hl hd (by simp)
    simp only [List.cons_append, parseDigitsGo, hhd, if_pos]
    exact ih (fun x hx => hl x (by simp [hx])) _

theorem parseDigitsGo_natDigitsAux (fuel n : Nat) (hn : n ≠ 0) (hfuel : n ≤ fuel) :
    parseDigitsGo (natDigitsAux fuel n) 0 = n := by
  -- generalized accumulator version proved by strong induction on n
  suffices h : ∀ m fuel, m ≤ fuel → ∀ acc,
      parseDigitsGo (natDigitsAux fuel m) acc =
        acc * 10 ^ (natDigitsAux fuel m).length + m by
    have := h n fuel hfuel 0
    simpa using this
  intro m
  induction m using Nat.strong_induction_on with
  | _ m ih =>
    intro fuel hm acc
    match fuel with
    | 0 =>
      have hm0 : m = 0 := by omega
      simp [natDigitsAux, hm0, parseDigitsGo]
    | fuel + 1 =>
      by_cases h0 : m = 0
      · simp [natDigitsAux, h0, parseDigitsGo]
      · have hdiv : m / 10 < m := Nat.div_lt_self (by omega) (by omega)
        have hdigit : isDigitB (48 + m % 10) = true := by
          have : m % 10 < 10 := Nat.mod_lt _ (by omega)
          simp [isDigitB]; omega
        have halldig : ∀ x ∈ natDigitsAux fuel (m / 10), isDigitB x = true := by
          intro x hx
          have := natDigitsAux_bounds fuel (m / 10) x hx
          simp [isDigitB]; omega
        rw [show natDigitsAux (fuel + 1) m
              = natDigitsAux fuel (m / 10) ++ [48 + m % 10] from by
            simp [natDigitsAux, h0]]
        rw [parseDigitsGo_append_digit _ _ halldig hdigit]
        rw [ih (m / 10) hdiv fuel (by omega) acc]
        have hmod : 48 + m % 10 - 48 = m % 10 := by omega
        rw [hmod]
        have hlen : (natDigitsAux fuel (m / 10) ++ [48 + m % 10]).length
            = (natDigitsAux fuel (m / 10)).length + 1 := by simp
        rw [hlen, pow_succ]
        calc (acc * 10 ^ (natDigitsAux fuel (m / 10)).length + m / 10) * 10 + m % 10
            = acc * (10 ^ (natDigitsAux fuel (m / 10)).length * 10)
                + (10 * (m / 10) + m % 10) := by ring
          _ = acc * (10 ^ (natDigitsAux fuel (m / 10)).length * 10) + m := by
              rw [Nat.div_add_mod]

theorem natDigitsAux_head_digit (n : Nat) (hn : n ≠ 0) :
    ∃ b rest, natDigitsAux n n = b :: rest ∧ isDigitB b = true := by
  have hne : natDigitsAux n n ≠ [] := by
    match n, hn with
    | m + 1, _ =>
      simp only [natDigitsAux]
      intro hcontra
      simp at hcontra
  match hh : natDigitsAux n n with
  | [] => exact absurd hh hne
  | b :: rest =>
    refine ⟨b, rest, rfl, ?_⟩
    have := natDigitsAux_bounds n n b (by rw [hh]; simp)
    simp [isDigitB]; omega

theorem jsParseIntB_natDigits (n : Nat) : jsParseIntB (natDigits n) = some (n : Int) := by
  by_cases h : n = 0
  · subst h
    simp [natDigits, jsParseIntB, parseDigitsB, parseDigitsGo, isDigitB, isJsSpace,
      List.dropWhile]
  · obtain ⟨b, rest, hbr, hdig⟩ := natDigitsAux_head_digit n h
    have hb48 : 48 ≤ b ∧ b ≤ 57 := natDigitsAux_bounds n n b (by rw [hbr]; simp)
    have hnotspace : isJsSpace b = false := by simp [isJsSpace]; omega
    have hnot45 : b ≠ 45 := by omega
    have hnot43 : b ≠ 43 := by omega
    simp only [natDigits, if_neg h, jsParseIntB, hbr]
    rw [show List.dropWhile isJsSpace (b :: rest) = b :: rest from by
      simp [List.dropWhile, hnotspace]]
    have hval : parseDigitsGo (b :: rest) 0 = n := by
      rw [← hbr]; exact parseDigitsGo_natDigitsAux n n h (le_refl n)
    simp [if_neg hnot45, if_neg hnot43, parseDigitsB, hdig, hval]

/-! ## RESP codec (resp.js)

`parseRESP` decodes one command frame from a byte buffer; the
`respBulk`/`respArray` encoders build the reply text at the JavaScript
string level, i.e. as lists of UTF-16 code units.  `Buffer.from` on a
string performs UTF-8 encoding (`utf8Encode`); `buffer.toString()`
performs UTF-8 decoding (`utf8Decode`).  An element whose declared
bulk length is `-1` decodes to the null item `RItem.nil`.  A declared
length below `-1` reaches `Buffer.slice` with negative indices in the
source; that path is not producible by any encoder output and is
modelled as a parse failure. -/

/-- A JavaScript string: a list of UTF-16 code units. -/
abbrev JStr := List Nat

inductive RItem
  | str (s : JStr)
  | int (n : Int)
  | nil
deriving DecidableEq

def toRItem : Option JStr → RItem
  | none => RItem.nil
  | some s => RItem.str s

/-- UTF-8 encoding of one code unit (scalar values of the basic
multilingual plane; surrogate pairing is not modelled since every
theorem below uses scalar units). -/
def utf8Char (u : Nat) : List Nat :=
  if u < 128 then [u]
  else if u < 2048 then [192 + u / 64, 128 + u % 64]
  else [224 + u / 4096, 128 + (u / 64) % 64, 128 + u % 64]

def utf8Encode (s : JStr) : List Nat := (s.map utf8Char).join

def utf8Decode : List Nat → JStr
  | [] => []
  | [b] => if b < 128 then [b] else [65533]
  | [b, c] =>
    if b < 128 then b :: utf8Decode [c]
    else if 192 ≤ b ∧ b < 224 then
      if 128 ≤ c ∧ c < 192 then [(b - 192) * 64 + (c - 128)]
      else 65533 :: utf8Decode [c]
    else if 224 ≤ b ∧ b < 240 then [65533]
    else 65533 :: utf8Decode [c]
  | b :: c :: d :: rest =>
    if b < 128 then b :: utf8Decode (c :: d :: rest)
    else if 192 ≤ b ∧ b < 224 then
      if 128 ≤ c ∧ c < 192 then ((b - 192) * 64 + (c - 128)) :: utf8Decode (d :: rest)
      else 65533 :: utf8Decode (c :: d :: rest)
    else if 224 ≤ b ∧ b < 240 then
      if (128 ≤ c ∧ c < 192) ∧ (128 ≤ d ∧ d < 192) then
        ((b - 224) * 4096 + (c - 128) * 64 + (d - 128)) :: utf8Decode rest
      else 65533 :: utf8Decode (c :: d :: rest)
    else 65533 :: utf8Decode (c :: d :: rest)
termination_by l => l.length
decreasing_by all_goals simp_wf <;> omega

/-- resp.js respBulk, at the JavaScript string level: a null (or
undefined) value encodes as the fixed null marker, otherwise the
declared length is the code-unit length of the string. -/
def respBulkU : Option JStr → JStr
  | none => [36, 45, 49, 13, 10]
  | some s => 36 :: (natDigits s.length ++ (13 :: 10 :: (s ++ [13, 10])))

/-- resp.js respArray restricted to bulk elements, as produced by
mapping respBulk over the element list. -/
def respArrayU (xs : List (Option JStr)) : JStr :=
  42 :: (natDigits xs.length ++ (13 :: 10 :: (xs.map respBulkU).join))

/-- buffer.indexOf of the two-byte sequence CR LF, returning the text
before the terminator and the text after it. -/
def readUntilCRLF : List Nat → Option (List Nat × List Nat)
  | [] => none
  | [_] => none
  | b :: c :: rest =>
    if b = 13 ∧ c = 10 then some ([], rest)
    else
      match readUntilCRLF (c :: rest) with
      | some (pre, post) => some (b :: pre, post)
      | none => none

/-- The element loop of parseRESP.  The accumulator is reversed on
exit, matching args.push. -/
def parseItems : Nat → List Nat → List RItem → Option (List RItem)
  | 0, _, acc => some acc.reverse
  | _ + 1, [], _ => none
  | n + 1, t :: rest, acc =>
    if t = 36 then
      match readUntilCRLF rest with
      | none => none
      | some (lenB, r1) =>
        match jsParseIntB lenB with
        | none => none
        | some bl =>
          if bl = -1 then parseItems n r1 (RItem.nil :: acc)
          else if bl < 0 then none
          else
            let len := bl.toNat
            if r1.length < len then none
            else
              match r1.drop len with
              | a :: b :: r2 =>
                if a = 13 ∧ b = 10 then
                  parseItems n r2 (RItem.str (utf8Decode (r1.take len)) :: acc)
                else none
              | _ => none
    else if t = 43 then
      match readUntilCRLF rest with
      | none => none
      | some (v, r1) => parseItems n r1 (RItem.str (utf8Decode v) :: acc)
    else if t = 45 then
      match readUntilCRLF rest with
      | none => none
      | some (v, r1) =>
        parseItems n r1 (RItem.str ([69, 114, 114, 111, 114, 58, 32] ++ utf8Decode v) :: acc)
    else if t = 58 then
      match readUntilCRLF rest with
      | none => none
      | some (v, r1) =>
        match jsParseIntB v with
        | none => none
        | some iv => parseItems n r1 (RItem.int iv :: acc)
    else none

/-- parseRESP from resp.js: only array frames are accepted. -/
def parseRESP (buf : List Nat) : Option (List RItem) :=
  match buf with
  | [] => none
  | t :: rest =>
    if t = 42 then
      match readUntilCRLF rest with
      | none => none
      | some (lenB, r1) =>
        match jsParseIntB lenB with
        | none => none
        | some n => if n < 0 then none else parseItems n.toNat r1 []
    else none

/-- Every element of the list that is present is made of ASCII code
units. -/
def asciiStr (l : List Nat) : Bool := l.all (fun b => b < 128)

def asciiItems (xs : List (Option JStr)) : Bool :=
  xs.all (fun o => match o with | none => true | some s => asciiStr s)

theorem asciiStr_mem {l : List Nat} (h : asciiStr l = true) {b : Nat} (hb : b ∈ l) :
    b < 128 := by
  simp only [asciiStr, List.all_eq_true, decide_eq_true_eq] at h
  exact h b hb

theorem utf8Encode_ascii (l : List Nat) (h : ∀ b ∈ l, b < 128) :
    utf8Encode l = l := by
  induction l with
  | nil => simp [utf8Encode]
  | cons b rest ih =>
    have hb : b < 128 := h b (by simp)
    have hrest := ih (fun x hx => h x (by simp [hx]))
    simp only [utf8Encode, List.map_cons, List.join] at hrest ⊢
    simp [utf8Char, hb, hrest]

theorem utf8Decode_cons_ascii (b : Nat) (rest : List Nat) (hb : b < 128) :
    utf8Decode (b :: rest) = b :: utf8Decode rest := by
  match rest with
  | [] => simp [utf8Decode, hb]
  | [c] => simp [utf8Decode, hb]
  | c :: d :: rest' => simp [utf8Decode, hb]

theorem utf8Decode_ascii (l : List Nat) (h : ∀ b ∈ l, b < 128) :
    utf8Decode l = l := by
  induction l with
  | nil => simp [utf8Decode]
  | cons b rest ih =>
    have hb : b < 128 := h b (by simp)
    rw [utf8Decode_cons_ascii b rest hb]
    rw [ih (fun x hx => h x (by simp [hx]))]

theorem readUntilCRLF_append (pre rest : List Nat) (h : ∀ b ∈ pre, b ≠ 13) :
    readUntilCRLF (pre ++ 13 :: 10 :: rest) = some (pre, rest) := by
  induction pre with
  | nil => simp [readUntilCRLF]
  | cons b pre' ih =>
    have hb : b ≠ 13 := h b (by simp)
    have ihh := ih (fun x hx => h x (by simp [hx]))
    cases pre' with
    | nil =>
      simp [readUntilCRLF, hb]
    | cons b2 pre'' =>
      simp only [List.cons_append] at ihh ⊢
      rw [readUntilCRLF, if_neg (by simp [hb]), ihh]

theorem natDigits_ne_13 (n : Nat) : ∀ b ∈ natDigits n, b ≠ 13 := by
  intro b hb
  have := natDigits_bounds n b hb
  omega

theorem parseItems_encode (xs : List (Option JStr)) (hx : asciiItems xs = true)
    (acc : List RItem) :
    parseItems xs.length ((xs.map respBulkU).join) acc
      = some (acc.reverse ++ xs.map toRItem) := by
  induction xs generalizing acc with
  | nil => simp [parseItems]
  | cons o xs' ih =>
    have hxs' : asciiItems xs' = true := by
      simp only [asciiItems, List.all_cons, Bool.and_eq_true] at hx
      exact hx.2
    cases o with
    | none =>
      rw [show (((none :: xs').map respBulkU).join : List Nat)
            = 36 :: ([45, 49] ++ 13 :: 10 :: ((xs'.map respBulkU).join)) from by
          simp [respBulkU]]
      rw [show (none :: xs').length = xs'.length + 1 from by simp]
      simp only [parseItems, if_true]
      rw [readUntilCRLF_append [45, 49] _ (by intro b hb; simp at hb; omega)]
      dsimp only
      rw [show jsParseIntB [45, 49] = some (-1) from rfl]
      dsimp only
      rw [if_pos (rfl : (-1 : Int) = -1)]
      rw [ih hxs']
      simp [toRItem]
    | some s =>
      have hs : ∀ u ∈ s, u < 128 := by
        intro u hu
        simp only [asciiItems, List.all_cons, Bool.and_eq_true] at hx
        exact asciiStr_mem hx.1 hu
      rw [show (((some s :: xs').map respBulkU).join : List Nat)
            = 36 :: (natDigits s.length
                ++ 13 :: 10 :: (s ++ 13 :: 10 :: ((xs'.map respBulkU).join))) from by
          simp [respBulkU]]
      rw [show (some s :: xs').length = xs'.length + 1 from by simp]
      simp only [parseItems, if_true]
      rw [readUntilCRLF_append (natDigits s.length) _ (natDigits_ne_13 _)]
      dsimp only
      rw [jsParseIntB_natDigits s.length]
      dsimp only
      rw [if_neg (by omega : ¬ ((s.length : Int) = -1))]
      rw [if_neg (by omega : ¬ ((s.length : Int) < 0))]
      rw [Int.toNat_natCast]
      rw [if_neg (by simp :
        ¬ ((s ++ 13 :: 10 :: ((xs'.map respBulkU).join)).length < s.length))]
      rw [show (s ++ 13 :: 10 :: ((xs'.map respBulkU).join)).drop s.length
            = 13 :: 10 :: ((xs'.map respBulkU).join) from by
          have := List.drop_left s (13 :: 10 :: ((xs'.map respBulkU).join))
          simpa using this]
      dsimp only
      rw [if_pos (⟨rfl, rfl⟩ : ((13 : Nat) = 13 ∧ (10 : Nat) = 10))]
      rw [show (s ++ 13 :: 10 :: ((xs'.map respBulkU).join)).take s.length = s from by
          have := List.take_left s (13 :: 10 :: ((xs'.map respBulkU).join))
          simpa using this]
      rw [utf8Decode_ascii s hs]
      rw [ih hxs']
      simp [toRItem]

theorem respBulkU_ascii (o : Option JStr)
    (ho : ∀ s, o = some s → ∀ u ∈ s, u < 128) :
    ∀ b ∈ respBulkU o, b < 128 := by
  cases o with
  | none => intro b hb; simp [respBulkU] at hb; omega
  | some s =>
    intro b hb
    rw [show respBulkU (some s)
          = 36 :: (natDigits s.length ++ (13 :: 10 :: (s ++ [13, 10]))) from rfl] at hb
    rcases List.mem_cons.mp hb with rfl | hb
    · omega
    rcases List.mem_append.mp hb with hb | hb
    · have := natDigits_bounds s.length b hb
      omega
    rcases List.mem_cons.mp hb with rfl | hb
    · omega
    rcases List.mem_cons.mp hb with rfl | hb
    · omega
    rcases List.mem_append.mp hb with hb | hb
    · exact ho s rfl b hb
    rcases List.mem_cons.mp hb with rfl | hb
    · omega
    rcases List.mem_cons.mp hb with rfl | hb
    · omega
    exact absurd hb (List.not_mem_nil b)

theorem respArrayU_ascii (xs : List (Option JStr)) (hx : asciiItems xs = true) :
    ∀ b ∈ respArrayU xs, b < 128 := by
  intro b hb
  rw [show respArrayU xs
        = 42 :: (natDigits xs.length ++ (13 :: 10 :: ((xs.map respBulkU).join))) from rfl] at hb
  rcases List.mem_cons.mp hb with rfl | hb
  · omega
  rcases List.mem_append.mp hb with hb | hb
  · have := natDigits_bounds xs.length b hb
    omega
  rcases List.mem_cons.mp hb with rfl | hb
  · omega
  rcases List.mem_cons.mp hb with rfl | hb
  · omega
  rcases List.mem_join.mp hb with ⟨l, hl, hbl⟩
  rcases List.mem_map.mp hl with ⟨o, ho, rfl⟩
  refine respBulkU_ascii o ?_ b hbl
  intro s hso u hu
  subst hso
  simp only [asciiItems, List.all_eq_true] at hx
  exact asciiStr_mem (by simpa using hx (some s) ho) hu

/-- Round-trip of the codec on a list of (possibly null) ASCII bulk
strings: parsing the encoded array recovers the list, with null
elements decoding to the null item. -/
theorem parseRESP_respArrayU (xs : List (Option JStr)) (hx : asciiItems xs = true) :
    parseRESP (utf8Encode (respArrayU xs)) = some (xs.map toRItem) := by
  rw [utf8Encode_ascii _ (respArrayU_ascii xs hx)]
  rw [show respArrayU xs
        = 42 :: (natDigits xs.length ++ 13 :: 10 :: ((xs.map respBulkU).join)) from by
      simp [respArrayU]]
  simp only [parseRESP, if_true]
  rw [readUntilCRLF_append (natDigits xs.length) _ (natDigits_ne_13 _)]
  dsimp only
  rw [jsParseIntB_natDigits xs.length]
  dsimp only
  rw [if_neg (by omega : ¬ ((xs.length : Int) < 0))]
  rw [Int.toNat_natCast]
  rw [parseItems_encode xs hx []]
  simp

/-- C3 (counterexample): the round-trip law parseRESP(respArray(x)) == x
fails for binary-safe strings outside ASCII.  For x = ["é"] (one code
unit 233), respBulk declares length 1 (the code-unit count) while the
buffer holds the two UTF-8 bytes 195 169, so the CRLF check after the
bulk payload fails and parseRESP returns null instead of x. -/
theorem resp_roundtrip_fails_on_nonascii :
    parseRESP (utf8Encode (respArrayU [some [233]]))
      ≠ some ([some [233]].map toRItem) ∧
    parseRESP (utf8Encode (respArrayU [some [233]])) = none := by
  decide

/-- C3 (amended): for every list x of ASCII binary-safe strings and
nulls, parseRESP(respArray(x)) == x, where a null element encodes as
the fixed null marker and a declared length of -1 decodes back to a
null value (RItem.nil) in that array slot; and respBulk(null) is
exactly the five bytes of the null marker sequence, never a
zero-length string encoding. -/
theorem resp_roundtrip_ascii_and_null_marker :
    (∀ xs : List (Option JStr), asciiItems xs = true →
        parseRESP (utf8Encode (respArrayU xs)) = some (xs.map toRItem)) ∧
    respBulkU none = [36, 45, 49, 13, 10] ∧
    toRItem none = RItem.nil :=
  ⟨parseRESP_respArrayU, rfl, rfl⟩

/-- Witness for C3: a concrete two-element list, one ASCII string and
one null, round-trips through the codec. -/
theorem resp_roundtrip_witness :
    asciiItems [some [102, 111, 111], none] = true ∧
    parseRESP (utf8Encode (respArrayU [some [102, 111, 111], none]))
      = some [RItem.str [102, 111, 111], RItem.nil] :=
  ⟨by decide, resp_roundtrip_ascii_and_null_marker.1 _ (by decide)⟩

/-! ## Storage engine adapter (store.js)

The LMDB database is an ordered map from string keys to string values:
`dbPut` keeps the association list sorted by key, so `db.getKeys()`
is the sorted key list (`db.map Prod.fst`).  LMDB rejects some writes
(zero-length or oversized keys, exhausted map); the set of keys on
which `db.put` throws is modelled by the `failKeys` field, fixed for a
run.  The cache and the cursor registry are JavaScript Maps. -/

inductive TOp
  | put (key value : String)
  | remove (key : String)
  | keysQ (pattern : String)
deriving DecidableEq

structure TxnState where
  operations : List TOp
  active : Bool
deriving DecidableEq

structure ScanCursor where
  position : Nat
  lastKey : Option String
  pattern : String
  createdAt : Nat
deriving DecidableEq

structure StoreState where
  db : List (String × String)
  cache : List (String × String)
  activeTransactions : List (String × TxnState)
  scanCursors : List (Nat × ScanCursor)
  nextCursorId : Nat
  failKeys : List String
deriving DecidableEq

def dbPut : List (String × String) → String → String → List (String × String)
  | [], key, val => [(key, val)]
  | (k, v) :: rest, key, val =>
    if key < k then (key, val) :: (k, v) :: rest
    else if key = k then (key, val) :: rest
    else (k, v) :: dbPut rest key val

def dbGet (db : List (String × String)) (k : String) : Option String := alookup db k

def dbRemove (db : List (String × String)) (k : String) : List (String × String) :=
  aerase db k

def cacheGet (c : List (String × String)) (k : String) : Option String := alookup c k

def cacheSet (c : List (String × String)) (k v : String) : List (String × String) :=
  aset c k v

def cacheDel (c : List (String × String)) (k : String) : List (String × String) :=
  aerase c k

/-- Message carried by a rejected engine write; the JavaScript code
surfaces error.message, whose exact text depends on the engine. -/
def engineErrMsg : String := "put failed"

/-- The transaction lookup used by queueOrExecute and store.del:
clientId must be truthy (present and non-empty) and name an active
transaction. -/
def activeTxnFor (s : StoreState) (c : Option String) : Option (String × TxnState) :=
  match c with
  | none => none
  | some cid =>
    if cid = "" then none
    else
      match alookup s.activeTransactions cid with
      | none => none
      | some t => if t.active then some (cid, t) else none

/-- queueOrExecute from store.js, for a put operation (store.set). -/
def storeSet (s : StoreState) (k v : String) (c : Option String) :
    StoreState × Except String Bool :=
  match activeTxnFor s c with
  | some (cid, t) =>
    ({ s with
        activeTransactions :=
          aset s.activeTransactions cid
            ({ t with operations := t.operations ++ [TOp.put k v] }) },
     Except.ok true)
  | none =>
    if k ∈ s.failKeys then (s, Except.error engineErrMsg)
    else ({ s with db := dbPut s.db k v, cache := cacheSet s.cache k v }, Except.ok true)

/-- store.exists: cache first, engine on a miss, populating the cache
when the engine has the key. -/
def storeExists (s : StoreState) (k : String) : Bool × StoreState :=
  match cacheGet s.cache k with
  | some _ => (true, s)
  | none =>
    match dbGet s.db k with
    | none => (false, s)
    | some v => (true, { s with cache := cacheSet s.cache k v })

/-- store.get: cache first, engine on a miss, populating the cache
when the value is found. -/
def storeGet (s : StoreState) (k : String) : Option String × StoreState :=
  match cacheGet s.cache k with
  | some v => (some v, s)
  | none =>
    match dbGet s.db k with
    | none => (none, s)
    | some v => (some v, { s with cache := cacheSet s.cache k v })

/-- store.del: an exists check (which may populate the cache), then
either queue the removal in an active transaction or remove from the
engine and the cache immediately. -/
def storeDel (s : StoreState) (k : String) (c : Option String) : StoreState × Bool :=
  let (ex, s1) := storeExists s k
  if !ex then (s1, false)
  else
    match activeTxnFor s1 c with
    | some (cid, t) =>
      ({ s1 with
          activeTransactions :=
            aset s1.activeTransactions cid
              ({ t with operations := t.operations ++ [TOp.remove k] }) },
       true)
    | none =>
      ({ s1 with db := dbRemove s1.db k, cache := cacheDel s1.cache k }, true)

/-- store.keys: queued as a keys operation inside a transaction,
otherwise a full filtered key listing (pattern matching is defined
below with the scan subsystem). -/
def storeKeysWith (m : String → Bool) (s : StoreState) (p : String) (c : Option String) :
    List String × StoreState :=
  match activeTxnFor s c with
  | some (cid, t) =>
    ([], { s with
        activeTransactions :=
          aset s.activeTransactions cid
            ({ t with operations := t.operations ++ [TOp.keysQ p] }) })
  | none => ((s.db.map Prod.fst).filter m, s)

/-- store.beginTransaction: null when a transaction already exists for
the client, otherwise a fresh active state with an empty log. -/
def beginTransaction (s : StoreState) (cid : String) : StoreState × Option TxnState :=
  match alookup s.activeTransactions cid with
  | some _ => (s, none)
  | none =>
    ({ s with activeTransactions := aset s.activeTransactions cid ⟨[], true⟩ },
     some ⟨[], true⟩)

/-- The replay loop inside db.transaction during commit: each put
updates the engine and the cache, each remove deletes from both, and a
failing engine write aborts the whole engine transaction while the
cache mutations already performed stay in place.  Returns the engine
state as accumulated (to be discarded on failure), the cache state as
accumulated, and the success flag. -/
def commitReplay (fail : List String) :
    List (String × String) → List (String × String) → List TOp →
    List (String × String) × List (String × String) × Bool
  | db, cache, [] => (db, cache, true)
  | db, cache, TOp.put k v :: rest =>
    if k ∈ fail then (db, cache, false)
    else commitReplay fail (dbPut db k v) (cacheSet cache k v) rest
  | db, cache, TOp.remove k :: rest =>
    commitReplay fail (dbRemove db k) (cacheDel cache k) rest
  | db, cache, TOp.keysQ _ :: rest => commitReplay fail db cache rest

/-- store.commitTransaction: replays the queued operations inside one
native engine transaction; on failure the engine aborts (none of the
queued engine mutations become visible) but the cache keeps the
mutations applied before the failure.  The transaction state is
cleared either way. -/
def commitTransaction (s : StoreState) (c : Option String) : StoreState × Bool :=
  match c with
  | none => (s, false)
  | some cid =>
    match alookup s.activeTransactions cid with
    | none => (s, false)
    | some t =>
      if !t.active then (s, false)
      else
        let (db', cache', ok) := commitReplay s.failKeys s.db s.cache t.operations
        ({ s with
            db := (if ok then db' else s.db),
            cache := cache',
            activeTransactions := aerase s.activeTransactions cid }, ok)

/-- store.abortTransaction: discards the transaction state without
touching the engine or the cache. -/
def abortTransaction (s : StoreState) (c : Option String) : StoreState × Bool :=
  match c with
  | none => (s, false)
  | some cid =>
    match alookup s.activeTransactions cid with
    | none => (s, false)
    | some t =>
      if !t.active then (s, false)
      else ({ s with activeTransactions := aerase s.activeTransactions cid }, true)

/-! ## Pattern matching and the scan cursor registry (store.js)

store._globToRegex turns a glob pattern into an anchored regular
expression in which every `*` became `.*` and every `?` became `.`,
with all other characters escaped to literals.  The JavaScript `.`
does not match line terminators, which `globMatchL` reflects. -/

def isLineTerm (c : Char) : Bool :=
  c = Char.ofNat 10 || c = Char.ofNat 13 || c.toNat = 8232 || c.toNat = 8233

def globMatchL : List Char → List Char → Bool
  | [], [] => true
  | [], _ :: _ => false
  | p :: ps, s =>
    if p = '*' then
      globMatchL ps s ||
        (match s with
         | [] => false
         | c :: s' => !isLineTerm c && globMatchL (p :: ps) s')
    else
      match s with
      | [] => false
      | c :: s' =>
        if p = '?' then !isLineTerm c && globMatchL ps s'
        else (p = c) && globMatchL ps s'
termination_by p s => (p.length, s.length)

def globMatch (pattern key : String) : Bool := globMatchL pattern.data key.data

def storeKeys (s : StoreState) (p : String) (c : Option String) :
    List String × StoreState :=
  storeKeysWith (globMatch p) s p c

/-- Array.prototype.findIndex: the index of the first match, or -1. -/
def jsFindIndexAux (p : String → Bool) : List String → Int
  | [] => -1
  | a :: as =>
    if p a then 0
    else
      let r := jsFindIndexAux p as
      if r = -1 then -1 else r + 1

/-- JavaScript truthiness of a possibly absent string: undefined and
the empty string are falsy. -/
def truthyStr : Option String → Bool
  | none => false
  | some s => s ≠ ""

structure ScanResult where
  nextCursor : Nat
  keys : List String
deriving DecidableEq

/-- The collection loop of store.scan: walk the snapshot suffix that
starts at the resume index, collecting keys that match until count
matches are collected or the snapshot is exhausted; returns the
collected keys and the number of snapshot entries the loop walked
past (the loop index at exit is the resume index plus that count). -/
def scanLoop (m : String → Bool) (count : Int) :
    List String → Int → List String × Nat
  | [], _ => ([], 0)
  | key :: rest, collected =>
    if collected < count then
      if m key then
        let r := scanLoop m count rest (collected + 1)
        (key :: r.1, r.2 + 1)
      else
        let r := scanLoop m count rest collected
        (r.1, r.2 + 1)
    else ([], 0)

/-- The collection-and-cursor-creation part of store.scan, once the
resume index is known.  The snapshot is db.getKeys().  If the snapshot
is not exhausted a new cursor is registered under the next cursor id;
the stored creation time is irrelevant here (the probabilistic
time-to-live sweep guarded by Math.random is not modelled) and is
fixed at 0. -/
def scanFrom (s : StoreState) (startIndex : Nat) (pattern : String) (count : Int) :
    StoreState × ScanResult :=
  let allKeys := s.db.map Prod.fst
  let r := scanLoop (globMatch pattern) count (allKeys.drop startIndex) 0
  let i := startIndex + r.2
  if i < allKeys.length then
    ({ s with
        scanCursors := aset s.scanCursors s.nextCursorId
          ⟨i, (if i = 0 then none else allKeys.get? (i - 1)), pattern, 0⟩,
        nextCursorId := s.nextCursorId + 1 },
     ⟨s.nextCursorId, r.1⟩)
  else (s, ⟨0, r.1⟩)

def storeScanGo (s : StoreState) (position : Nat) (currentKey : Option String)
    (pattern : String) (count : Int) : StoreState × ScanResult :=
  let startIndex : Nat :=
    if 0 < position ∧ truthyStr currentKey then
      (jsFindIndexAux (fun key => key == currentKey.getD "") (s.db.map Prod.fst) + 1).toNat
    else 0
  scanFrom s startIndex pattern count

/-- store.scan with a numeric cursor as passed by the scan command: a
zero or invalid cursor starts fresh, a positive cursor known to the
registry resumes from its stored position and last key and is deleted
on use. -/
def storeScan (s : StoreState) (cursor : Int) (pattern : String) (count : Int) :
    StoreState × ScanResult :=
  if cursor = 0 then storeScanGo s 0 none pattern count
  else if 0 < cursor then
    match alookup s.scanCursors cursor.toNat with
    | some st =>
      storeScanGo { s with scanCursors := aerase s.scanCursors cursor.toNat }
        st.position st.lastKey pattern count
    | none => storeScanGo s 0 none pattern count
  else storeScanGo s 0 none pattern count

/-! ## Connection state, command handlers and the dispatcher -/

/-- An entry of the per-connection command queue: the transaction
handlers push command+args records, while the PING handler pushes a
bare function (whose .command field is undefined when EXEC replays
it). -/
inductive QEntry
  | cmd (name : String) (args : List String)
  | thunk (resp : String)
deriving DecidableEq

structure ClientState where
  inTransaction : Bool
  commandQueue : List QEntry
  clientId : Option String
  name : Option String
deriving DecidableEq

def upperChar (c : Char) : Char :=
  if 'a' ≤ c ∧ c ≤ 'z' then Char.ofNat (c.toNat - 32) else c

def jsToUpper (s : String) : String := String.mk (s.data.map upperChar)

/-- JavaScript `x || d` on a possibly absent string. -/
def jsOrDefault (o : Option String) (d : String) : String :=
  match o with
  | none => d
  | some s => if s = "" then d else s

def respOKS : String := "+OK\r\n"

def respErrorS (msg : String) : String := "-" ++ msg ++ "\r\n"

def respBulkS : Option String → String
  | none => "$-1\r\n"
  | some s => "$" ++ toString s.length ++ "\r\n" ++ s ++ "\r\n"

def respIntegerS (n : Int) : String := ":" ++ toString n ++ "\r\n"

def respArrayS (arr : List String) : String :=
  "*" ++ toString arr.length ++ "\r\n"
    ++ String.join (arr.map (fun s => respBulkS (some s)))

/-- commands/set.js. -/
def setHandler (s : StoreState) (cs : ClientState) (args : List String) :
    StoreState × ClientState × String :=
  if cs.inTransaction then
    (s, { cs with commandQueue := cs.commandQueue ++ [QEntry.cmd "SET" (args.take 2)] },
     "+QUEUED\r\n")
  else
    match args with
    | k :: v :: _ =>
      match storeSet s k v cs.clientId with
      | (s', Except.ok _) => (s', cs, "+OK\r\n")
      | (s', Except.error m) => (s', cs, "-ERR " ++ m ++ "\r\n")
    | _ =>
      -- a missing key or value reaches the engine as undefined and is
      -- rejected; the handler catch turns the rejection into an error reply
      (s, cs, "-ERR " ++ engineErrMsg ++ "\r\n")

/-- commands/get.js. -/
def getHandler (s : StoreState) (cs : ClientState) (args : List String) :
    StoreState × ClientState × String :=
  if cs.inTransaction then
    (s, { cs with commandQueue := cs.commandQueue ++ [QEntry.cmd "GET" (args.take 1)] },
     "+QUEUED\r\n")
  else
    match args with
    | k :: _ =>
      let r := storeGet s k
      (r.2, cs, respBulkS r.1)
    | [] =>
      -- store.get of an undefined key is caught inside store.get and
      -- yields undefined, encoded as the null bulk string
      (s, cs, respBulkS none)

/-- commands/exists.js. -/
def existsHandler (s : StoreState) (cs : ClientState) (args : List String) :
    StoreState × ClientState × String :=
  if cs.inTransaction then
    (s, { cs with commandQueue := cs.commandQueue ++ [QEntry.cmd "EXISTS" (args.take 1)] },
     "+QUEUED\r\n")
  else
    match args with
    | k :: _ =>
      let r := storeExists s k
      (r.2, cs, respIntegerS (if r.1 then 1 else 0))
    | [] =>
      -- store.exists of an undefined key is caught inside store.exists
      -- and yields false
      (s, cs, respIntegerS 0)

/-- commands/del.js: an existence check, the deletion, and a
verification that the key is really gone. -/
def delHandler (s : StoreState) (cs : ClientState) (args : List String) :
    StoreState × ClientState × String :=
  if cs.inTransaction then
    (s, { cs with commandQueue := cs.commandQueue ++ [QEntry.cmd "DEL" (args.take 1)] },
     "+QUEUED\r\n")
  else
    match args with
    | k :: _ =>
      let r1 := storeExists s k
      if r1.1 then
        let r2 := storeDel r1.2 k cs.clientId
        let r3 := storeExists r2.1 k
        if r3.1 then (r3.2, cs, respIntegerS 0)
        else (r3.2, cs, respIntegerS 1)
      else (r1.2, cs, respIntegerS 0)
    | [] => (s, cs, respIntegerS 0)

/-- commands/keys.js; a missing pattern defaults to "*". -/
def keysHandler (s : StoreState) (cs : ClientState) (args : List String) :
    StoreState × ClientState × String :=
  if cs.inTransaction then
    (s, { cs with commandQueue := cs.commandQueue ++ [QEntry.cmd "KEYS" (args.take 1)] },
     "+QUEUED\r\n")
  else
    let p := args.headD "*"
    let r := storeKeys s p cs.clientId
    (r.2, cs, respArrayS r.1)

/-- commands/ping.js: inside a transaction it pushes a bare function
onto the queue. -/
def pingHandler (s : StoreState) (cs : ClientState) (_args : List String) :
    StoreState × ClientState × String :=
  if cs.inTransaction then
    (s, { cs with commandQueue := cs.commandQueue ++ [QEntry.thunk "+PONG\r\n"] },
     "+QUEUED\r\n")
  else (s, cs, "+PONG\r\n")

/-- The CLIENT ID reply: parseInt of the second underscore-separated
part of the client id, 0 when no id exists, rendered literally (NaN
included) into the integer reply. -/
def clientIdReply (cid : Option String) : String :=
  match cid with
  | none => ":0\r\n"
  | some c =>
    if c = "" then ":0\r\n"
    else
      match (c.splitOn "_").get? 1 with
      | none => ":NaN\r\n"
      | some part =>
        match jsParseIntStr part with
        | none => ":NaN\r\n"
        | some n => ":" ++ toString n ++ "\r\n"

/-- commands/client.js: a falsy (missing or empty) subcommand is a
wrong-number-of-arguments error; the recognized subcommands are
SETNAME, GETNAME, ID, LIST and INFO; anything else replies +OK. -/
def clientCommand (cs : ClientState) (subcommand : Option String) (args : List String) :
    ClientState × String :=
  match subcommand with
  | none => (cs, "-ERR wrong number of arguments for \x27client\x27 command\r\n")
  | some sub =>
    if sub = "" then (cs, "-ERR wrong number of arguments for \x27client\x27 command\r\n")
    else
      let cmd := jsToUpper sub
      if cmd = "SETNAME" then
        match args.head? with
        | none => (cs, "-ERR wrong number of arguments for \x27client setname\x27 command\r\n")
        | some nm =>
          if nm = "" then
            (cs, "-ERR wrong number of arguments for \x27client setname\x27 command\r\n")
          else ({ cs with name := some nm }, "+OK\r\n")
      else if cmd = "GETNAME" then
        match cs.name with
        | some nm => if nm = "" then (cs, "$-1\r\n") else (cs, respBulkS (some nm))
        | none => (cs, "$-1\r\n")
      else if cmd = "ID" then (cs, clientIdReply cs.clientId)
      else if cmd = "LIST" then
        (cs, respArrayS ["id=" ++ jsOrDefault cs.clientId "0"
              ++ " name=" ++ jsOrDefault cs.name ""])
      else if cmd = "INFO" then
        (cs, respArrayS ["id=" ++ jsOrDefault cs.clientId "0"
              ++ " name=" ++ jsOrDefault cs.name ""])
      else (cs, "+OK\r\n")

/-- commands/multi.js: a nested MULTI is refused; otherwise a client id
is generated if absent (freshId stands for the Date.now/random value),
a store transaction is begun, and the connection queue and flag are
initialized. -/
def multiCmd (freshId : String) (s : StoreState) (cs : ClientState) :
    StoreState × ClientState × String :=
  if cs.inTransaction then (s, cs, "-ERR MULTI calls can not be nested\r\n")
  else
    let cs1 :=
      match cs.clientId with
      | none => { cs with clientId := some freshId }
      | some cid => if cid = "" then { cs with clientId := some freshId } else cs
    let s1 := (beginTransaction s (cs1.clientId.getD "")).1
    (s1, { cs1 with commandQueue := [], inTransaction := true }, "+OK\r\n")

/-- commands/discard.js. -/
def discardCmd (s : StoreState) (cs : ClientState) : StoreState × ClientState × String :=
  if !cs.inTransaction then (s, cs, "-ERR DISCARD without MULTI\r\n")
  else
    let s1 := (abortTransaction s cs.clientId).1
    (s1, { cs with commandQueue := [], inTransaction := false }, "+OK\r\n")

/-- The command registry used while replaying a queue in exec.js. -/
def execHandlerNames : List String := ["SET", "GET", "DEL", "KEYS", "EXISTS"]

/-- The fresh non-transactional state exec.js replays queued commands
against; it has no clientId, so replayed mutations execute immediately
against the engine and the cache. -/
def execClientState : ClientState := ⟨false, [], none, none⟩

def runExecHandler (name : String) (s : StoreState) (args : List String) :
    StoreState × String :=
  if name = "SET" then
    let r := setHandler s execClientState args
    (r.1, r.2.2)
  else if name = "GET" then
    let r := getHandler s execClientState args
    (r.1, r.2.2)
  else if name = "DEL" then
    let r := delHandler s execClientState args
    (r.1, r.2.2)
  else if name = "KEYS" then
    let r := keysHandler s execClientState args
    (r.1, r.2.2)
  else
    let r := existsHandler s execClientState args
    (r.1, r.2.2)

/-- The replay loop of exec.js: handlers run immediately one by one;
their error replies are collected like any other result (each handler
catches its own failures), and an entry with no known command name
aborts the loop with an unknown-command error, leaving the mutations
already performed in place. -/
def execLoop : StoreState → List QEntry → List String →
    StoreState × Except String (List String)
  | s, [], acc => (s, Except.ok acc.reverse)
  | s, QEntry.thunk _ :: _, _ => (s, Except.error "undefined")
  | s, QEntry.cmd name args :: rest, acc =>
    if name ∈ execHandlerNames then
      let r := runExecHandler name s args
      execLoop r.1 rest (r.2 :: acc)
    else (s, Except.error name)

/-- commands/exec.js: replay the queued commands against a fresh
non-transactional state, then commit the (always empty) store-level
operation log, clear the connection transaction state and return the
results as one array reply. -/
def execCmd (s : StoreState) (cs : ClientState) : StoreState × ClientState × String :=
  if !cs.inTransaction then (s, cs, "-ERR EXEC without MULTI\r\n")
  else
    match execLoop s cs.commandQueue [] with
    | (s', Except.error nm) => (s', cs, "-ERR unknown command " ++ nm ++ "\r\n")
    | (s', Except.ok results) =>
      let s2 := (commitTransaction s' cs.clientId).1
      (s2, { cs with inTransaction := false, commandQueue := [] },
       "*" ++ toString results.length ++ "\r\n" ++ String.join results)

/-! ## The SCAN command (commands/scan.js)

The file src/commands/scan.js contains the character U+00A5 where the
other sources have a backslash: its response template literals spell
out the two characters "¥r" and "¥n" instead of CR and LF, and the
regular expression in its test-case filter matches a literal "¥"
followed by letters "d".  The embedding reproduces those strings
byte for byte. -/

def parseScanOpts : List String → String → Int → String × Int
  | [], pat, cnt => (pat, cnt)
  | a :: rest, pat, cnt =>
    let u := jsToUpper a
    if u = "MATCH" then
      match rest with
      | p :: rest' => parseScanOpts rest' p cnt
      | [] => (pat, cnt)
    else if u = "COUNT" then
      match rest with
      | cstr :: rest' =>
        let c : Int :=
          match jsParseIntStr cstr with
          | none => 10
          | some n => if n ≤ 0 then 10 else n
        parseScanOpts rest' pat c
      | [] => (pat, cnt)
    else parseScanOpts rest pat cnt

/-- filterKeysForTestCases: for the pattern "*1" the filter keeps keys
whose captured group under the corrupted regex (a literal yen sign
followed by a run of letters d) equals "1"; the group always starts
with the yen sign, so every key is dropped. -/
def filterKeysForTestCases (keys : List String) (pattern : String) : List String :=
  if pattern = "*1" then [] else keys

/-- commands/scan.js: option parsing, cursor validation (an invalid or
negative cursor silently becomes 0; a missing cursor argument is
undefined, whose parseInt is NaN), the store scan, the test-case
filter, and the response text built with the corrupted "¥r¥n"
separators. -/
def scanCommandJS (s : StoreState) (cursor : Option String) (args : List String) :
    StoreState × String :=
  let po := parseScanOpts args "*" 10
  let pattern := po.1
  let count := po.2
  let cursorValue : Int :=
    match cursor with
    | none => 0
    | some cstr =>
      match jsParseIntStr cstr with
      | none => 0
      | some n => if n < 0 then 0 else n
  let r := storeScan s cursorValue pattern count
  let filteredKeys := filterKeysForTestCases r.2.keys pattern
  let cursorStr := toString r.2.nextCursor
  (r.1,
   "*2¥r¥n$" ++ toString cursorStr.length ++ "¥r¥n" ++ cursorStr ++ "¥r¥n"
     ++ "*" ++ toString filteredKeys.length ++ "¥r¥n"
     ++ String.join (filteredKeys.map
          (fun key => "$" ++ toString key.length ++ "¥r¥n" ++ key ++ "¥r¥n")))

/-- The command registry loaded from src/commands by server.js. -/
def commandNames : List String :=
  ["CLIENT", "DEL", "DISCARD", "EXEC", "EXISTS", "GET", "KEYS", "MULTI", "PING", "SCAN", "SET"]

/-- The dispatch logic of processCommand in server.js: transaction
control commands run immediately, other known commands are queued
while in a transaction and run immediately otherwise, and an unknown
command name is an error. -/
def dispatch (freshId : String) (s : StoreState) (cs : ClientState)
    (cmd : String) (params : List String) : StoreState × ClientState × String :=
  let command := jsToUpper cmd
  if command ∈ commandNames then
    if command = "MULTI" then multiCmd freshId s cs
    else if command = "EXEC" then execCmd s cs
    else if command = "DISCARD" then discardCmd s cs
    else if cs.inTransaction then
      (s, { cs with commandQueue := cs.commandQueue ++ [QEntry.cmd command params] },
       "+QUEUED\r\n")
    else if command = "SET" then setHandler s cs params
    else if command = "GET" then getHandler s cs params
    else if command = "DEL" then delHandler s cs params
    else if command = "EXISTS" then existsHandler s cs params
    else if command = "KEYS" then keysHandler s cs params
    else if command = "PING" then pingHandler s cs params
    else if command = "CLIENT" then
      let r := clientCommand cs params.head? params.tail
      (s, r.1, r.2)
    else
      let r := scanCommandJS s params.head? params.tail
      (r.1, cs, r.2)
  else (s, cs, respErrorS ("ERR unknown command \x27" ++ command ++ "\x27"))

/-- A session: dispatch a list of commands in order on one connection,
collecting the replies. -/
def runSession (freshId : String) :
    StoreState → ClientState → List (String × List String) →
    StoreState × ClientState × List String
  | s, cs, [] => (s, cs, [])
  | s, cs, (c, a) :: rest =>
    let r := dispatch freshId s cs c a
    let r2 := runSession freshId r.1 r.2.1 rest
    (r2.1, r2.2.1, r.2.2 :: r2.2.2)

/-- C1: transaction atomicity fails on the code.  Queued commands are
replayed by EXEC one at a time against a fresh non-transactional
execution state, so each mutation hits the engine immediately.  When
the engine rejects the second SET, the first SET's effect stays in the
engine and the cache after EXEC replies, and the EXEC reply is an
array embedding the error, not an error reply.  This theorem evaluates
the embedded code at the failing input. -/
theorem exec_partial_application_observable :
    (runSession "f" ⟨[], [], [], [], 1, ["kbig"]⟩ ⟨false, [], some "c", none⟩
        [("MULTI", []), ("SET", ["a", "1"]), ("SET", ["kbig", "2"]), ("EXEC", [])]).2.2
      = ["+OK\r\n", "+QUEUED\r\n", "+QUEUED\r\n",
         "*2\r\n+OK\r\n-ERR put failed\r\n"] ∧
    dbGet (runSession "f" ⟨[], [], [], [], 1, ["kbig"]⟩ ⟨false, [], some "c", none⟩
        [("MULTI", []), ("SET", ["a", "1"]), ("SET", ["kbig", "2"]), ("EXEC", [])]).1.db "a"
      = some "1" ∧
    cacheGet (runSession "f" ⟨[], [], [], [], 1, ["kbig"]⟩ ⟨false, [], some "c", none⟩
        [("MULTI", []), ("SET", ["a", "1"]), ("SET", ["kbig", "2"]), ("EXEC", [])]).1.cache "a"
      = some "1" ∧
    dbGet (runSession "f" ⟨[], [], [], [], 1, ["kbig"]⟩ ⟨false, [], some "c", none⟩
        [("MULTI", []), ("SET", ["a", "1"]), ("SET", ["kbig", "2"]), ("EXEC", [])]).1.db "kbig"
      = none := by
  decide

/-- C2: the SCAN reply is not CRLF-terminated RESP.  scan.js builds
its response with the literal characters "¥r¥n" (the file holds U+00A5
where the other sources hold a backslash), so the reply to SCAN 0 on
an empty store is the yen-separated text below, it does not start with
the RESP header "*2" CR LF that the unit test expects, and no carriage
return appears anywhere in it. -/
theorem scan_reply_not_crlf_terminated :
    (scanCommandJS ⟨[], [], [], [], 1, []⟩ (some "0") []).2
      = "*2¥r¥n$1¥r¥n0¥r¥n*0¥r¥n" ∧
    ((scanCommandJS ⟨[], [], [], [], 1, []⟩ (some "0") []).2.startsWith "*2\r\n") = false ∧
    (∀ ch ∈ "*2¥r¥n$1¥r¥n0¥r¥n*0¥r¥n".data, ch ≠ Char.ofNat 13) := by
  refine ⟨by decide, by decide, by decide⟩

/-- C7: at most one active transaction per client.  A second MULTI on
a connection already in a transaction returns the nesting error and
leaves both the connection state (flag and queue) and the store state
(including the existing operation log) untouched, and
store.beginTransaction refuses to create a transaction for a client
that already has one, returning null and changing nothing. -/
theorem multi_nested_rejected (freshId : String) (s : StoreState) (cs : ClientState)
    (h : cs.inTransaction = true) (c : String) (t : TxnState)
    (hc : alookup s.activeTransactions c = some t) :
    multiCmd freshId s cs = (s, cs, "-ERR MULTI calls can not be nested\r\n") ∧
    beginTransaction s c = (s, none) := by
  constructor
  · simp [multiCmd, h]
  · simp [beginTransaction, hc]

/-- Witness for C7 at a concrete state holding an active transaction. -/
theorem multi_nested_rejected_witness :
    multiCmd "f" ⟨[], [], [("c", ⟨[], true⟩)], [], 1, []⟩ ⟨true, [], some "c", none⟩
      = (⟨[], [], [("c", ⟨[], true⟩)], [], 1, []⟩, ⟨true, [], some "c", none⟩,
         "-ERR MULTI calls can not be nested\r\n") ∧
    beginTransaction ⟨[], [], [("c", ⟨[], true⟩)], [], 1, []⟩ "c"
      = (⟨[], [], [("c", ⟨[], true⟩)], [], 1, []⟩, none) :=
  multi_nested_rejected "f" ⟨[], [], [("c", ⟨[], true⟩)], [], 1, []⟩
    ⟨true, [], some "c", none⟩ rfl "c" ⟨[], true⟩ (by decide)

/-- C8: DEL of an absent key outside a transaction replies with the
integer zero and leaves the whole store state (engine contents and
cache) unchanged. -/
theorem del_absent_key_noop (s : StoreState) (cs : ClientState) (k : String)
    (args : List String) (htx : cs.inTransaction = false)
    (hc : cacheGet s.cache k = none) (hd : dbGet s.db k = none) :
    delHandler s cs (k :: args) = (s, cs, ":0\r\n") := by
  have hex : storeExists s k = (false, s) := by
    simp [storeExists, hc, hd]
  simp [delHandler, htx, hex]
  rfl

/-- Witness for C8 on a store holding an unrelated key. -/
theorem del_absent_key_noop_witness :
    delHandler ⟨[("b", "2")], [], [], [], 1, []⟩ ⟨false, [], some "c", none⟩ ["a"]
      = (⟨[("b", "2")], [], [], [], 1, []⟩, ⟨false, [], some "c", none⟩, ":0\r\n") :=
  del_absent_key_noop ⟨[("b", "2")], [], [], [], 1, []⟩ ⟨false, [], some "c", none⟩
    "a" [] rfl (by decide) (by decide)

/-- C10 (counterexample): an empty-string subcommand is outside the
recognized set, yet CLIENT replies with a wrong-number-of-arguments
error rather than +OK, because the empty string is falsy in the
argument-presence check. -/
theorem client_empty_subcommand_not_ok :
    jsToUpper "" ∉ ["SETNAME", "GETNAME", "ID", "LIST", "INFO"] ∧
    (clientCommand ⟨false, [], some "client_1", none⟩ (some "") []).2
      = "-ERR wrong number of arguments for \x27client\x27 command\r\n" ∧
    (clientCommand ⟨false, [], some "client_1", none⟩ (some "") []).2 ≠ "+OK\r\n" := by
  refine ⟨by decide, by decide, by decide⟩

/-- C10 (amended): for every non-empty subcommand whose uppercase form
is outside SETNAME, GETNAME, ID, LIST, INFO, CLIENT replies +OK and
leaves the connection state (name, clientId, transaction flag)
unchanged. -/
theorem client_unknown_subcommand_ok (cs : ClientState) (sub : String)
    (args : List String) (hne : sub ≠ "")
    (hsub : jsToUpper sub ∉ ["SETNAME", "GETNAME", "ID", "LIST", "INFO"]) :
    clientCommand cs (some sub) args = (cs, "+OK\r\n") := by
  simp only [List.mem_cons, List.mem_singleton, not_or] at hsub
  obtain ⟨h1, h2, h3, h4, h5⟩ := hsub
  simp [clientCommand, hne, h1, h2, h3, h4, h5]

/-- Witness for C10 with the unknown subcommand FOO. -/
theorem client_unknown_subcommand_witness :
    clientCommand ⟨false, [], some "client_1", none⟩ (some "FOO") []
      = (⟨false, [], some "client_1", none⟩, "+OK\r\n") :=
  client_unknown_subcommand_ok ⟨false, [], some "client_1", none⟩ "FOO" []
    (by decide) (by decide)

/-! ## Cache coherence (C6) -/

theorem dbGet_dbPut_self (db : List (String × String)) (k v : String) :
    dbGet (dbPut db k v) k = some v := by
  induction db with
  | nil => simp [dbPut, dbGet, alookup]
  | cons hd tl ih =>
    obtain ⟨k0, v0⟩ := hd
    by_cases h1 : k < k0
    · simp [dbPut, h1, dbGet, alookup]
    · by_cases h2 : k = k0
      · simp [dbPut, h1, h2, dbGet, alookup]
      · have h3 : ¬ k0 = k := fun hh => h2 hh.symm
        simpa [dbPut, h1, h2, dbGet, alookup, h3] using ih

theorem dbGet_dbPut_other (db : List (String × String)) (k k' v : String)
    (h : k' ≠ k) : dbGet (dbPut db k v) k' = dbGet db k' := by
  have hk : ¬ k = k' := fun hh => h hh.symm
  induction db with
  | nil => simp [dbPut, dbGet, alookup, hk]
  | cons hd tl ih =>
    obtain ⟨k0, v0⟩ := hd
    by_cases h1 : k < k0
    · simp [dbPut, h1, dbGet, alookup, hk]
    · by_cases h2 : k = k0
      · subst h2
        simp [dbPut, h1, dbGet, alookup, hk]
      · by_cases h3 : k0 = k'
        · subst h3
          simp [dbPut, h1, h2, dbGet, alookup]
        · simpa [dbPut, h1, h2, dbGet, alookup, h3] using ih

theorem mem_dbPut_keys (db : List (String × String)) (k ka v : String)
    (hka : ka ∈ (dbPut db k v).map Prod.fst) :
    ka ∈ db.map Prod.fst ∨ ka = k := by
  induction db with
  | nil =>
    simp only [dbPut, List.map_cons, List.map_nil, List.mem_singleton] at hka
    exact Or.inr hka
  | cons hd tl ih =>
    obtain ⟨k0, v0⟩ := hd
    by_cases h1 : k < k0
    · rw [show dbPut ((k0, v0) :: tl) k v = (k, v) :: (k0, v0) :: tl from by
        simp [dbPut, h1]] at hka
      simp only [List.map_cons, List.mem_cons] at hka
      rcases hka with h | h | h
      · exact Or.inr h
      · exact Or.inl (by simp [h])
      · exact Or.inl (by simp only [List.map_cons, List.mem_cons]; exact Or.inr h)
    · by_cases h2 : k = k0
      · rw [show dbPut ((k0, v0) :: tl) k v = (k, v) :: tl from by
          simp [dbPut, h1, h2]] at hka
        simp only [List.map_cons, List.mem_cons] at hka
        rcases hka with h | h
        · exact Or.inr h
        · exact Or.inl (by simp only [List.map_cons, List.mem_cons]; exact Or.inr h)
      · rw [show dbPut ((k0, v0) :: tl) k v = (k0, v0) :: dbPut tl k v from by
          simp [dbPut, h1, h2]] at hka
        simp only [List.map_cons, List.mem_cons] at hka
        rcases hka with h | h
        · exact Or.inl (by simp [h])
        · rcases ih h with h' | h'
          · exact Or.inl (by simp only [List.map_cons, List.mem_cons]; exact Or.inr h')
          · exact Or.inr h'

/-- dbPut keeps the key list strictly sorted, which is how the ordered
engine stores its keyspace. -/
theorem dbPut_sorted (db : List (String × String)) (k v : String)
    (hs : List.Sorted (· < ·) (db.map Prod.fst)) :
    List.Sorted (· < ·) ((dbPut db k v).map Prod.fst) := by
  induction db with
  | nil => simp [dbPut]
  | cons hd tl ih =>
    obtain ⟨k0, v0⟩ := hd
    simp only [List.map_cons, List.sorted_cons] at hs
    by_cases h1 : k < k0
    · rw [show dbPut ((k0, v0) :: tl) k v = (k, v) :: (k0, v0) :: tl from by
        simp [dbPut, h1]]
      simp only [List.map_cons, List.sorted_cons, List.mem_cons]
      refine ⟨?_, hs.1, hs.2⟩
      intro b hb
      rcases hb with rfl | hb
      · exact h1
      · exact h1.trans (hs.1 b hb)
    · by_cases h2 : k = k0
      · rw [show dbPut ((k0, v0) :: tl) k v = (k, v) :: tl from by
          simp [dbPut, h1, h2]]
        simp only [List.map_cons, List.sorted_cons]
        subst h2
        exact hs
      · have h3 : k0 < k := by
          rcases lt_trichotomy k k0 with h | h | h
          · exact absurd h h1
          · exact absurd h h2
          · exact h
        rw [show dbPut ((k0, v0) :: tl) k v = (k0, v0) :: dbPut tl k v from by
          simp [dbPut, h1, h2]]
        simp only [List.map_cons, List.sorted_cons]
        refine ⟨?_, ih hs.2⟩
        intro b hb
        rcases mem_dbPut_keys tl k b v hb with h | h
        · exact hs.1 b h
        · exact h ▸ h3

theorem sorted_keys_nodup {db : List (String × String)}
    (hs : List.Sorted (· < ·) (db.map Prod.fst)) : (db.map Prod.fst).Nodup :=
  hs.nodup

/-- The operations the storage adapter exposes, as invoked by the
handlers: immediate or queued mutations, reads, and transaction
control. -/
inductive SOp
  | beginT (c : String)
  | setI (c : Option String) (k v : String)
  | delI (c : Option String) (k : String)
  | getI (k : String)
  | existsI (k : String)
  | keysI (c : Option String) (p : String)
  | commitT (c : String)
  | abortT (c : String)
deriving DecidableEq

def runOp (s : StoreState) : SOp → StoreState
  | SOp.beginT c => (beginTransaction s c).1
  | SOp.setI c k v => (storeSet s k v c).1
  | SOp.delI c k => (storeDel s k c).1
  | SOp.getI k => (storeGet s k).2
  | SOp.existsI k => (storeExists s k).2
  | SOp.keysI c p => (storeKeys s p c).2
  | SOp.commitT c => (commitTransaction s (some c)).1
  | SOp.abortT c => (abortTransaction s (some c)).1

def runOps (s : StoreState) (ops : List SOp) : StoreState := ops.foldl runOp s

/-- The cache coherence property: every cache entry agrees with what
the engine holds for that key. -/
def Coherent (s : StoreState) : Prop :=
  ∀ k v, cacheGet s.cache k = some v → dbGet s.db k = some v

/-- Pair-level coherence, used through the commit replay loop. -/
def CoherentPair (db cache : List (String × String)) : Prop :=
  ∀ k v, alookup cache k = some v → alookup db k = some v

/-- The running invariant: no engine write failures are configured,
the engine key list is sorted (as LMDB keeps it), the cache is a map
(no duplicate keys), and the cache agrees with the engine. -/
def Good (s : StoreState) : Prop :=
  s.failKeys = [] ∧ List.Sorted (· < ·) (s.db.map Prod.fst) ∧
    (s.cache.map Prod.fst).Nodup ∧ Coherent s

theorem coherentPair_put (db cache : List (String × String)) (k v : String)
    (hco : CoherentPair db cache) :
    CoherentPair (dbPut db k v) (aset cache k v) := by
  intro k' v' h
  by_cases hk : k' = k
  · subst hk
    rw [alookup_aset_self] at h
    cases h
    exact dbGet_dbPut_self db k' v
  · rw [alookup_aset_other _ _ _ _ hk] at h
    rw [show alookup (dbPut db k v) k' = dbGet (dbPut db k v) k' from rfl,
      dbGet_dbPut_other db k k' v hk]
    exact hco k' v' h

theorem coherentPair_remove (db cache : List (String × String)) (k : String)
    (hn : (cache.map Prod.fst).Nodup) (hco : CoherentPair db cache) :
    CoherentPair (aerase db k) (aerase cache k) := by
  intro k' v' h
  by_cases hk : k' = k
  · subst hk
    rw [alookup_aerase_self cache k' hn] at h
    cases h
  · rw [alookup_aerase_other _ _ _ hk] at h
    rw [alookup_aerase_other _ _ _ hk]
    exact hco k' v' h

/-- With no configured engine failures the commit replay loop succeeds
and preserves sortedness, cache key uniqueness and coherence. -/
theorem commitReplay_nil_fail (ops : List TOp) :
    ∀ db cache, List.Sorted (· < ·) (db.map Prod.fst) →
    (cache.map Prod.fst).Nodup → CoherentPair db cache →
    (commitReplay [] db cache ops).2.2 = true ∧
    List.Sorted (· < ·) ((commitReplay [] db cache ops).1.map Prod.fst) ∧
    ((commitReplay [] db cache ops).2.1.map Prod.fst).Nodup ∧
    CoherentPair (commitReplay [] db cache ops).1 (commitReplay [] db cache ops).2.1 := by
  induction ops with
  | nil => intro db cache hs hn hco; exact ⟨rfl, hs, hn, hco⟩
  | cons op rest ih =>
    intro db cache hs hn hco
    cases op with
    | put k v =>
      rw [show commitReplay [] db cache (TOp.put k v :: rest)
            = commitReplay [] (dbPut db k v) (cacheSet cache k v) rest from by
          simp [commitReplay]]
      exact ih (dbPut db k v) (cacheSet cache k v) (dbPut_sorted db k v hs)
        (aset_keys_nodup cache k v hn) (coherentPair_put db cache k v hco)
    | remove k =>
      rw [show commitReplay [] db cache (TOp.remove k :: rest)
            = commitReplay [] (dbRemove db k) (cacheDel cache k) rest from by
          simp [commitReplay]]
      exact ih (dbRemove db k) (cacheDel cache k)
        (hs.sublist (aerase_keys_sublist db k))
        (aerase_keys_nodup cache k hn)
        (coherentPair_remove db cache k hn hco)
    | keysQ p =>
      rw [show commitReplay [] db cache (TOp.keysQ p :: rest)
            = commitReplay [] db cache rest from by simp [commitReplay]]
      exact ih db cache hs hn hco

/-- storeExists either leaves the state alone or copies the engine
value of the key into the cache. -/
theorem storeExists_state (s : StoreState) (k : String) :
    (storeExists s k).2 = s ∨
    ∃ v, dbGet s.db k = some v ∧
      (storeExists s k).2 = { s with cache := cacheSet s.cache k v } := by
  cases hc : cacheGet s.cache k with
  | some v => left; simp [storeExists, hc]
  | none =>
    cases hd : dbGet s.db k with
    | none => left; simp [storeExists, hc, hd]
    | some v => right; exact ⟨v, rfl, by simp [storeExists, hc, hd]⟩

theorem storeGet_state (s : StoreState) (k : String) :
    (storeGet s k).2 = s ∨
    ∃ v, dbGet s.db k = some v ∧
      (storeGet s k).2 = { s with cache := cacheSet s.cache k v } := by
  cases hc : cacheGet s.cache k with
  | some v => left; simp [storeGet, hc]
  | none =>
    cases hd : dbGet s.db k with
    | none => left; simp [storeGet, hc, hd]
    | some v => right; exact ⟨v, rfl, by simp [storeGet, hc, hd]⟩

/-- Populating the cache from the engine preserves the invariant. -/
theorem good_cache_populate (s : StoreState) (k v : String)
    (hdb : dbGet s.db k = some v) (hg : Good s) :
    Good { s with cache := cacheSet s.cache k v } := by
  refine ⟨hg.1, hg.2.1, aset_keys_nodup _ _ _ hg.2.2.1, ?_⟩
  intro k' v' h
  by_cases hk : k' = k
  · subst hk
    rw [show cacheGet (cacheSet s.cache k' v) k' = some v from alookup_aset_self _ _ _] at h
    cases h
    exact hdb
  · rw [show cacheGet (cacheSet s.cache k v) k' = cacheGet s.cache k'
        from alookup_aset_other _ _ _ _ hk] at h
    exact hg.2.2.2 k' v' h

theorem good_storeExists (s : StoreState) (k : String) (hg : Good s) :
    Good (storeExists s k).2 := by
  rcases storeExists_state s k with h | ⟨v, hdb, h⟩
  · rw [h]; exact hg
  · rw [h]; exact good_cache_populate s k v hdb hg

theorem good_storeGet (s : StoreState) (k : String) (hg : Good s) :
    Good (storeGet s k).2 := by
  rcases storeGet_state s k with h | ⟨v, hdb, h⟩
  · rw [h]; exact hg
  · rw [h]; exact good_cache_populate s k v hdb hg

theorem storeExists_db (s : StoreState) (k : String) :
    (storeExists s k).2.db = s.db ∧
    (storeExists s k).2.activeTransactions = s.activeTransactions ∧
    (storeExists s k).2.failKeys = s.failKeys := by
  rcases storeExists_state s k with h | ⟨v, _, h⟩ <;> rw [h] <;> exact ⟨rfl, rfl, rfl⟩

theorem runOp_good (s : StoreState) (op : SOp) (hg : Good s) : Good (runOp s op) := by
  cases op with
  | beginT c =>
    cases h : alookup s.activeTransactions c with
    | some t => simpa [runOp, beginTransaction, h] using hg
    | none =>
      simp only [runOp, beginTransaction, h]
      exact hg
  | setI c k v =>
    simp only [runOp, storeSet]
    cases ht : activeTxnFor s c with
    | some ct =>
      obtain ⟨cid, t⟩ := ct
      exact hg
    | none =>
      have hknot : k ∉ s.failKeys := by rw [hg.1]; simp
      simp only [if_neg hknot]
      refine ⟨hg.1, dbPut_sorted _ _ _ hg.2.1, aset_keys_nodup _ _ _ hg.2.2.1, ?_⟩
      exact coherentPair_put s.db s.cache k v hg.2.2.2
  | delI c k =>
    simp only [runOp, storeDel]
    have hg1 : Good (storeExists s k).2 := good_storeExists s k hg
    cases hex : (storeExists s k).1 with
    | false => simpa [hex] using hg1
    | true =>
      simp only [hex, Bool.not_true, Bool.false_eq_true, if_false]
      cases ht : activeTxnFor (storeExists s k).2 c with
      | some ct =>
        obtain ⟨cid, t⟩ := ct
        exact hg1
      | none =>
        refine ⟨hg1.1, hg1.2.1.sublist (aerase_keys_sublist _ _),
          aerase_keys_nodup _ _ hg1.2.2.1, ?_⟩
        exact coherentPair_remove _ _ k hg1.2.2.1 hg1.2.2.2
  | getI k => exact good_storeGet s k hg
  | existsI k => exact good_storeExists s k hg
  | keysI c p =>
    simp only [runOp, storeKeys, storeKeysWith]
    cases ht : activeTxnFor s c with
    | some ct =>
      obtain ⟨cid, t⟩ := ct
      exact hg
    | none => exact hg
  | commitT c =>
    simp only [runOp, commitTransaction]
    cases h : alookup s.activeTransactions c with
    | none => exact hg
    | some t =>
      cases hact : t.active with
      | false => simpa [hact] using hg
      | true =>
        simp only [hact, Bool.not_true, Bool.false_eq_true, if_false]
        have hfk : s.failKeys = [] := hg.1
        have hrep := commitReplay_nil_fail t.operations s.db s.cache
          hg.2.1 hg.2.2.1 hg.2.2.2
        simp only [hfk]
        refine ⟨rfl, ?_, ?_, ?_⟩
        · simp only [hrep.1, if_true]
          exact hrep.2.1
        · exact hrep.2.2.1
        · intro k v hkv
          simp only [hrep.1, if_true]
          exact hrep.2.2.2 k v hkv
  | abortT c =>
    simp only [runOp, abortTransaction]
    cases h : alookup s.activeTransactions c with
    | none => exact hg
    | some t =>
      cases hact : t.active with
      | false => simpa [hact] using hg
      | true =>
        simp only [hact, Bool.not_true, Bool.false_eq_true, if_false]
        exact hg

theorem runOps_good (s : StoreState) (ops : List SOp) (hg : Good s) :
    Good (runOps s ops) := by
  induction ops generalizing s with
  | nil => exact hg
  | cons op rest ih =>
    rw [show runOps s (op :: rest) = runOps (runOp s op) rest from rfl]
    exact ih (runOp s op) (runOp_good s op hg)

/-- C6 (counterexample): a failed commit breaks cache coherence.  A
transaction queuing SET a 1 then SET kbig 2, where the engine rejects
the put of kbig during commit, rolls the engine back entirely but
leaves the cache entry a → 1 written during the replay, so a cache hit
on a diverges from the engine, which has no entry for a. -/
theorem cache_coherence_fails_after_failed_commit :
    ¬ Coherent (runOps ⟨[], [], [], [], 1, ["kbig"]⟩
      [SOp.beginT "c", SOp.setI (some "c") "a" "1",
       SOp.setI (some "c") "kbig" "2", SOp.commitT "c"]) := by
  intro h
  have h2 := h "a" "1" (by decide)
  exact absurd h2 (by decide)

/-- C6 (amended): for every key, after any sequence of store
operations in which no engine write fails (immediate mutations, reads,
begins, aborts, and commits, which then all succeed), whenever the
cache holds an entry for a key it equals the value the engine would
return for that key.  A failed commit can break this, as the
counterexample shows. -/
theorem cache_coherence_no_failed_commits (s : StoreState) (ops : List SOp)
    (hf : s.failKeys = [])
    (hs : List.Sorted (· < ·) (s.db.map Prod.fst))
    (hn : (s.cache.map Prod.fst).Nodup)
    (hco : Coherent s) :
    Coherent (runOps s ops) :=
  (runOps_good s ops ⟨hf, hs, hn, hco⟩).2.2.2

/-- Witness for C6 on a concrete run: begin, queue a write, commit,
read back. -/
theorem cache_coherence_witness :
    Coherent (runOps ⟨[], [], [], [], 1, []⟩
      [SOp.beginT "c", SOp.setI (some "c") "a" "1", SOp.commitT "c", SOp.getI "a"]) :=
  cache_coherence_no_failed_commits ⟨[], [], [], [], 1, []⟩
    [SOp.beginT "c", SOp.setI (some "c") "a" "1", SOp.commitT "c", SOp.getI "a"]
    rfl (by simp) (by simp)
    (fun k v h => by simp [cacheGet, alookup] at h)

/-- The EXEC step of the C5 scenario: replaying the queue GET k,
SET k v2, GET k against a store whose transaction table holds an empty
active log for the client yields the array [bulk v1, +OK, bulk v2]. -/
theorem execCmd_get_set_get (s : StoreState) (cs : ClientState) (c k v1 v2 : String)
    (htx : cs.inTransaction = true)
    (hq : cs.commandQueue = [QEntry.cmd "GET" [k], QEntry.cmd "SET" [k, v2], QEntry.cmd "GET" [k]])
    (hcid : cs.clientId = some c)
    (hvd : cacheGet s.cache k = some v1 ∨
      (cacheGet s.cache k = none ∧ dbGet s.db k = some v1))
    (hfail : k ∉ s.failKeys)
    (htxn : alookup s.activeTransactions c = some ⟨[], true⟩) :
    (execCmd s cs).2.2
      = "*3\r\n" ++ respBulkS (some v1) ++ "+OK\r\n" ++ respBulkS (some v2) := by
  cases hcg : cacheGet s.cache k with
  | some v =>
    have hv : v = v1 := by
      rcases hvd with h | h
      · rw [hcg] at h; cases h; rfl
      · rw [hcg] at h; cases h.1
    subst hv
    have hcg' : alookup s.cache k = some v := hcg
    simp [execCmd, htx, hq, execLoop, execHandlerNames, runExecHandler, getHandler,
      setHandler, execClientState, storeGet, cacheGet, dbGet, cacheSet, hcg', storeSet,
      activeTxnFor, hfail, alookup_aset_self, commitTransaction, hcid, htxn,
      commitReplay, String.join]
    rw [show ((("*" : String) ++ toString (3 : Nat) ++ "\r\n") = "*3\r\n") from by decide]
    rw [String.append_assoc, String.append_assoc,
      ← String.append_assoc "*3\r\n" (respBulkS (some v)) _]
  | none =>
    cases hdb : dbGet s.db k with
    | none =>
      rcases hvd with h | h
      · rw [hcg] at h; cases h
      · rw [hdb] at h; cases h.2
    | some v =>
      have hv : v = v1 := by
        rcases hvd with h | h
        · rw [hcg] at h; cases h
        · rw [hdb] at h; cases h.2; rfl
      subst hv
      have hcg' : alookup s.cache k = none := hcg
      have hdb' : alookup s.db k = some v := hdb
      simp [execCmd, htx, hq, execLoop, execHandlerNames, runExecHandler, getHandler,
        setHandler, execClientState, storeGet, cacheGet, dbGet, cacheSet, hcg', hdb', storeSet,
        activeTxnFor, hfail, alookup_aset_self, commitTransaction, hcid, htxn,
        commitReplay, String.join]
      rw [show ((("*" : String) ++ toString (3 : Nat) ++ "\r\n") = "*3\r\n") from by decide]
      rw [String.append_assoc, String.append_assoc,
        ← String.append_assoc "*3\r\n" (respBulkS (some v)) _]

/-- C5: transaction isolation within a session.  On a key whose value
reads as v1 before the transaction, the session MULTI; GET k;
SET k v2; GET k; EXEC queues the three commands and EXEC replies with
the results [v1, OK, v2] in order: the first replayed GET observes the
pre-transaction value and the second observes the queued write. -/
theorem multi_get_set_get_exec_results (s : StoreState) (cs : ClientState)
    (freshId c k v1 v2 : String)
    (htx : cs.inTransaction = false)
    (hcid : cs.clientId = some c) (hcne : c ≠ "")
    (hnotxn : alookup s.activeTransactions c = none)
    (hval : (storeGet s k).1 = some v1)
    (hfail : k ∉ s.failKeys) :
    (runSession freshId s cs
        [("MULTI", []), ("GET", [k]), ("SET", [k, v2]), ("GET", [k]), ("EXEC", [])]).2.2
      = ["+OK\r\n", "+QUEUED\r\n", "+QUEUED\r\n", "+QUEUED\r\n",
         "*3\r\n" ++ respBulkS (some v1) ++ "+OK\r\n" ++ respBulkS (some v2)] := by
  have h1 : dispatch freshId s cs "MULTI" []
      = ({ s with activeTransactions := aset s.activeTransactions c ⟨[], true⟩ }, { cs with commandQueue := [], inTransaction := true }, "+OK\r\n") := by
    simp [dispatch, show jsToUpper "MULTI" = "MULTI" from by decide, commandNames,
      multiCmd, htx, hcid, hcne, beginTransaction, hnotxn]
  have h2 : dispatch freshId { s with activeTransactions := aset s.activeTransactions c ⟨[], true⟩ } { cs with commandQueue := [], inTransaction := true } "GET" [k]
      = ({ s with activeTransactions := aset s.activeTransactions c ⟨[], true⟩ }, { cs with commandQueue := [QEntry.cmd "GET" [k]], inTransaction := true }, "+QUEUED\r\n") := by
    simp [dispatch, show jsToUpper "GET" = "GET" from by decide, commandNames]
  have h3 : dispatch freshId { s with activeTransactions := aset s.activeTransactions c ⟨[], true⟩ } { cs with commandQueue := [QEntry.cmd "GET" [k]], inTransaction := true } "SET" [k, v2]
      = ({ s with activeTransactions := aset s.activeTransactions c ⟨[], true⟩ }, { cs with commandQueue := [QEntry.cmd "GET" [k], QEntry.cmd "SET" [k, v2]], inTransaction := true }, "+QUEUED\r\n") := by
    simp [dispatch, show jsToUpper "SET" = "SET" from by decide, commandNames]
  have h4 : dispatch freshId { s with activeTransactions := aset s.activeTransactions c ⟨[], true⟩ } { cs with commandQueue := [QEntry.cmd "GET" [k], QEntry.cmd "SET" [k, v2]], inTransaction := true } "GET" [k]
      = ({ s with activeTransactions := aset s.activeTransactions c ⟨[], true⟩ }, { cs with commandQueue := [QEntry.cmd "GET" [k], QEntry.cmd "SET" [k, v2], QEntry.cmd "GET" [k]], inTransaction := true }, "+QUEUED\r\n") := by
    simp [dispatch, show jsToUpper "GET" = "GET" from by decide, commandNames]
  have h5 : (dispatch freshId { s with activeTransactions := aset s.activeTransactions c ⟨[], true⟩ } { cs with commandQueue := [QEntry.cmd "GET" [k], QEntry.cmd "SET" [k, v2], QEntry.cmd "GET" [k]], inTransaction := true } "EXEC" []).2.2
      = "*3\r\n" ++ respBulkS (some v1) ++ "+OK\r\n" ++ respBulkS (some v2) := by
    rw [show dispatch freshId { s with activeTransactions := aset s.activeTransactions c ⟨[], true⟩ } { cs with commandQueue := [QEntry.cmd "GET" [k], QEntry.cmd "SET" [k, v2], QEntry.cmd "GET" [k]], inTransaction := true } "EXEC" []
      = execCmd { s with activeTransactions := aset s.activeTransactions c ⟨[], true⟩ } { cs with commandQueue := [QEntry.cmd "GET" [k], QEntry.cmd "SET" [k, v2], QEntry.cmd "GET" [k]], inTransaction := true } from by
      simp [dispatch, show jsToUpper "EXEC" = "EXEC" from by decide, commandNames]]
    refine execCmd_get_set_get _ _ c k v1 v2 rfl rfl hcid ?_ hfail (alookup_aset_self _ _ _)
    show cacheGet s.cache k = some v1 ∨ (cacheGet s.cache k = none ∧ dbGet s.db k = some v1)
    cases hcg : cacheGet s.cache k with
    | some v =>
      have hv : v = v1 := by simp [storeGet, hcg] at hval; exact hval
      exact Or.inl (by rw [hv])
    | none =>
      cases hdb : dbGet s.db k with
      | none => exact absurd hval (by simp [storeGet, hcg, hdb])
      | some v =>
        have hv : v = v1 := by simp [storeGet, hcg, hdb] at hval; exact hval
        exact Or.inr ⟨rfl, by rw [hv]⟩
  simp only [runSession, h1, h2, h3, h4]
  rw [h5]

/-- The optional MATCH portion of a SCAN argument list. -/
def matchArgs : Option String → List String
  | none => []
  | some p => ["MATCH", p]

theorem parseScanOpts_count_invalid (b : String) (pat : String) (cnt : Int)
    (hb : jsParseIntStr b = none ∨ ∃ n, jsParseIntStr b = some n ∧ n ≤ 0) :
    parseScanOpts ["COUNT", b] pat cnt = (pat, 10) := by
  rcases hb with hb | ⟨n, hb, hn⟩
  · simp [parseScanOpts, show jsToUpper "COUNT" = "COUNT" from by decide, hb]
  · simp [parseScanOpts, show jsToUpper "COUNT" = "COUNT" from by decide, hb, hn]

theorem parseScanOpts_count_ten (pat : String) (cnt : Int) :
    parseScanOpts ["COUNT", "10"] pat cnt = (pat, 10) := by
  simp [parseScanOpts, show jsToUpper "COUNT" = "COUNT" from by decide,
    show jsParseIntStr "10" = some 10 from by decide]

/-- C9: a SCAN whose COUNT argument does not parse as a number or
parses to a value at most 0 silently uses the default count of 10 and
behaves exactly like the same SCAN with COUNT 10 — same reply text and
same resulting store state, hence never an error for an invalid
count. -/
theorem scan_invalid_count_same_as_ten (s : StoreState) (cursor : Option String)
    (m : Option String) (b : String)
    (hb : jsParseIntStr b = none ∨ ∃ n, jsParseIntStr b = some n ∧ n ≤ 0) :
    scanCommandJS s cursor (matchArgs m ++ ["COUNT", b])
      = scanCommandJS s cursor (matchArgs m ++ ["COUNT", "10"]) := by
  have hopts : parseScanOpts (matchArgs m ++ ["COUNT", b]) "*" 10
      = parseScanOpts (matchArgs m ++ ["COUNT", "10"]) "*" 10 := by
    cases m with
    | none =>
      simp only [matchArgs, List.nil_append]
      rw [parseScanOpts_count_invalid b "*" 10 hb, parseScanOpts_count_ten]
    | some p =>
      simp only [matchArgs, List.cons_append, List.nil_append]
      rw [show ∀ rest, parseScanOpts ("MATCH" :: p :: rest) "*" 10
            = parseScanOpts rest p 10 from fun rest => by
          simp [parseScanOpts, show jsToUpper "MATCH" = "MATCH" from by decide],
        show ∀ rest, parseScanOpts ("MATCH" :: p :: rest) "*" 10
            = parseScanOpts rest p 10 from fun rest => by
          simp [parseScanOpts, show jsToUpper "MATCH" = "MATCH" from by decide]]
      rw [parseScanOpts_count_invalid b p 10 hb, parseScanOpts_count_ten]
  simp only [scanCommandJS, hopts]

/-- Witness for C9 with the non-numeric count "abc". -/
theorem scan_invalid_count_witness :
    scanCommandJS ⟨[("a", "1")], [], [], [], 1, []⟩ (some "0") ["COUNT", "abc"]
      = scanCommandJS ⟨[("a", "1")], [], [], [], 1, []⟩ (some "0") ["COUNT", "10"] :=
  scan_invalid_count_same_as_ten ⟨[("a", "1")], [], [], [], 1, []⟩ (some "0") none "abc"
    (Or.inl (by decide))

/-- Witness for C5 on a concrete store holding k = v1. -/
theorem multi_get_set_get_exec_witness :
    (runSession "f" ⟨[("k", "v1")], [], [], [], 1, []⟩ ⟨false, [], some "c", none⟩
        [("MULTI", []), ("GET", ["k"]), ("SET", ["k", "v2"]), ("GET", ["k"]), ("EXEC", [])]).2.2
      = ["+OK\r\n", "+QUEUED\r\n", "+QUEUED\r\n", "+QUEUED\r\n",
         "*3\r\n" ++ respBulkS (some "v1") ++ "+OK\r\n" ++ respBulkS (some "v2")] :=
  multi_get_set_get_exec_results ⟨[("k", "v1")], [], [], [], 1, []⟩
    ⟨false, [], some "c", none⟩ "f" "c" "k" "v1" "v2" rfl rfl (by decide) (by decide)
    (by decide) (by decide)

/-! ## Scan completeness (C4) -/

/-- The SCAN loop a client runs: call scan, then keep calling with the
returned cursor until a zero cursor comes back, concatenating the
returned keys.  Fuel bounds the number of calls; none means the fuel
ran out before the scan completed. -/
def scanChain (pattern : String) (count : Int) :
    Nat → StoreState → Int → Option (List String)
  | 0, _, _ => none
  | fuel + 1, s, cursor =>
    let r := storeScan s cursor pattern count
    if r.2.nextCursor = 0 then some r.2.keys
    else (scanChain pattern count fuel r.1 (r.2.nextCursor : Int)).map (r.2.keys ++ ·)

theorem scanLoop_decomp (m : String → Bool) (count : Int) :
    ∀ (l : List String) (collected : Int),
      (scanLoop m count l collected).1
          ++ (l.drop (scanLoop m count l collected).2).filter m
        = l.filter m ∧
      (scanLoop m count l collected).2 ≤ l.length := by
  intro l
  induction l with
  | nil => intro collected; simp [scanLoop]
  | cons key rest ih =>
    intro collected
    by_cases hcol : collected < count
    · by_cases hm : m key
      · have := ih (collected + 1)
        rw [show scanLoop m count (key :: rest) collected
              = (key :: (scanLoop m count rest (collected + 1)).1,
                 (scanLoop m count rest (collected + 1)).2 + 1) from by
            simp [scanLoop, hcol, hm]]
        constructor
        · simp only [List.drop_succ_cons, List.cons_append]
          rw [show (key :: rest).filter m = key :: rest.filter m from by
            simp [List.filter, hm]]
          exact congrArg (key :: ·) this.1
        · simp only [List.length_cons]
          omega
      · have := ih collected
        rw [show scanLoop m count (key :: rest) collected
              = ((scanLoop m count rest collected).1,
                 (scanLoop m count rest collected).2 + 1) from by
            simp [scanLoop, hcol, hm]]
        constructor
        · simp only [List.drop_succ_cons]
          rw [show (key :: rest).filter m = rest.filter m from by
            simp [List.filter, hm]]
          exact this.1
        · simp only [List.length_cons]
          omega
    · rw [show scanLoop m count (key :: rest) collected = ([], 0) from by
        simp [scanLoop, hcol]]
      simp

theorem scanLoop_progress (m : String → Bool) (count : Int) (key : String)
    (rest : List String) (collected : Int) (hcol : collected < count) :
    1 ≤ (scanLoop m count (key :: rest) collected).2 := by
  by_cases hm : m key
  · rw [show scanLoop m count (key :: rest) collected
        = (key :: (scanLoop m count rest (collected + 1)).1,
           (scanLoop m count rest (collected + 1)).2 + 1) from by
      simp [scanLoop, hcol, hm]]
    omega
  · rw [show scanLoop m count (key :: rest) collected
        = ((scanLoop m count rest collected).1,
           (scanLoop m count rest collected).2 + 1) from by
      simp [scanLoop, hcol, hm]]
    omega

theorem jsFindIndexAux_get (l : List String) (hl : l.Nodup) (j : Nat)
    (h : j < l.length) :
    jsFindIndexAux (fun x => x == l.get ⟨j, h⟩) l = (j : Int) := by
  induction l generalizing j with
  | nil => simp at h
  | cons a as ih =>
    simp only [List.nodup_cons] at hl
    cases j with
    | zero => simp [jsFindIndexAux]
    | succ j' =>
      have hget : (a :: as).get ⟨j' + 1, h⟩ = as.get ⟨j', by simpa using h⟩ := rfl
      have hne : (a == (a :: as).get ⟨j' + 1, h⟩) = false := by
        rw [hget]
        rw [beq_eq_false_iff_ne]
        intro hcontra
        exact hl.1 (hcontra ▸ as.get_mem _ _)
      have hr := ih hl.2 j' (by simpa using h)
      simp only [jsFindIndexAux, hne, Bool.false_eq_true, if_false]
      rw [show (fun x => x == as.get ⟨j', by simpa using h⟩)
            = (fun x => x == (a :: as).get ⟨j' + 1, h⟩) from by rw [hget]] at hr
      rw [hr]
      rw [if_neg (by omega)]
      push_cast
      ring

/-- Where a scan chain stands: either it is about to start fresh from
index 0, or the cursor is positive and registered with the position
and the last visited key of a partial walk that stopped at index i. -/
def StartsAt (s : StoreState) (cursor : Int) (i : Nat) : Prop :=
  (cursor = 0 ∧ i = 0) ∨
  (0 < cursor ∧ 0 < i ∧ i ≤ (s.db.map Prod.fst).length ∧
    ∃ p t, alookup s.scanCursors cursor.toNat
      = some ⟨i, (s.db.map Prod.fst).get? (i - 1), p, t⟩)

theorem scanFrom_pos (s : StoreState) (i : Nat) (pattern : String) (count : Int)
    (h : i + (scanLoop (globMatch pattern) count ((s.db.map Prod.fst).drop i) 0).2
        < (s.db.map Prod.fst).length) :
    scanFrom s i pattern count
      = ({ s with
            scanCursors := aset s.scanCursors s.nextCursorId
              ⟨i + (scanLoop (globMatch pattern) count ((s.db.map Prod.fst).drop i) 0).2,
               (if i + (scanLoop (globMatch pattern) count ((s.db.map Prod.fst).drop i) 0).2 = 0
                then none
                else (s.db.map Prod.fst).get?
                  (i + (scanLoop (globMatch pattern) count ((s.db.map Prod.fst).drop i) 0).2 - 1)),
               pattern, 0⟩,
            nextCursorId := s.nextCursorId + 1 },
         ⟨s.nextCursorId,
          (scanLoop (globMatch pattern) count ((s.db.map Prod.fst).drop i) 0).1⟩) := by
  simp only [scanFrom]
  rw [if_pos h]

theorem scanFrom_neg (s : StoreState) (i : Nat) (pattern : String) (count : Int)
    (h : ¬ (i + (scanLoop (globMatch pattern) count ((s.db.map Prod.fst).drop i) 0).2
        < (s.db.map Prod.fst).length)) :
    scanFrom s i pattern count
      = (s, ⟨0, (scanLoop (globMatch pattern) count ((s.db.map Prod.fst).drop i) 0).1⟩) := by
  simp only [scanFrom]
  rw [if_neg h]

theorem storeScan_fresh (s : StoreState) (pattern : String) (count : Int) :
    storeScan s 0 pattern count = scanFrom s 0 pattern count := by
  simp [storeScan, storeScanGo, truthyStr]

theorem storeScan_resume (s : StoreState) (cursor : Int) (i : Nat)
    (pattern p : String) (t : Nat) (count : Int)
    (hpos : 0 < cursor) (hipos : 0 < i)
    (hlt : i - 1 < (s.db.map Prod.fst).length)
    (hnd : (s.db.map Prod.fst).Nodup)
    (hne : ∀ k ∈ s.db.map Prod.fst, k ≠ "")
    (hreg : alookup s.scanCursors cursor.toNat
      = some ⟨i, (s.db.map Prod.fst).get? (i - 1), p, t⟩) :
    storeScan s cursor pattern count
      = scanFrom { s with scanCursors := aerase s.scanCursors cursor.toNat }
          i pattern count := by
  have hget : (s.db.map Prod.fst).get? (i - 1)
      = some ((s.db.map Prod.fst).get ⟨i - 1, hlt⟩) := List.get?_eq_get hlt
  have hkey_mem : (s.db.map Prod.fst).get ⟨i - 1, hlt⟩ ∈ s.db.map Prod.fst :=
    List.get_mem _ _ _
  have hkey_ne : (s.db.map Prod.fst).get ⟨i - 1, hlt⟩ ≠ "" := hne _ hkey_mem
  rw [show storeScan s cursor pattern count
      = storeScanGo { s with scanCursors := aerase s.scanCursors cursor.toNat }
          i ((s.db.map Prod.fst).get? (i - 1)) pattern count from by
    simp only [storeScan]
    rw [if_neg (by omega : ¬ cursor = 0), if_pos hpos, hreg]]
  rw [hget]
  simp only [storeScanGo]
  rw [if_pos ⟨hipos, by simpa [truthyStr] using hkey_ne⟩]
  have hfind : jsFindIndexAux
      (fun key => key == (some ((s.db.map Prod.fst).get ⟨i - 1, hlt⟩)).getD "")
      (({ s with scanCursors := aerase s.scanCursors cursor.toNat } :
          StoreState).db.map Prod.fst)
      = ((i - 1 : Nat) : Int) := by
    exact jsFindIndexAux_get (s.db.map Prod.fst) hnd (i - 1) hlt
  rw [hfind]
  rw [show ((((i - 1 : Nat) : Int)) + 1).toNat = i from by omega]

theorem scanChain_complete_from (pattern : String) (count : Int) (hc : 1 ≤ count) :
    ∀ (fuel : Nat) (s : StoreState) (cursor : Int) (i : Nat),
      (s.db.map Prod.fst).Nodup →
      (∀ k ∈ s.db.map Prod.fst, k ≠ "") →
      1 ≤ s.nextCursorId →
      StartsAt s cursor i →
      (s.db.map Prod.fst).length - i < fuel →
      scanChain pattern count fuel s cursor
        = some (((s.db.map Prod.fst).drop i).filter (globMatch pattern)) := by
  intro fuel
  induction fuel with
  | zero => intro s cursor i _ _ _ hstart hfuel; omega
  | succ fuel ih =>
    intro s cursor i hnd hne hid hstart hfuel
    -- resolve the storeScan call to scanFrom s' i, where s' differs
    -- from s at most in the cursor registry
    obtain ⟨s', hscan, hdb', hnid'⟩ :
        ∃ s', storeScan s cursor pattern count = scanFrom s' i pattern count ∧
          s'.db = s.db ∧ s'.nextCursorId = s.nextCursorId := by
      rcases hstart with ⟨hc0, hi0⟩ | ⟨hpos, hipos, hile, p, t, hreg⟩
      · subst hc0; subst hi0
        exact ⟨s, storeScan_fresh s pattern count, rfl, rfl⟩
      · have hlt : i - 1 < (s.db.map Prod.fst).length := by omega
        exact ⟨{ s with scanCursors := aerase s.scanCursors cursor.toNat },
          storeScan_resume s cursor i pattern p t count hpos hipos hlt hnd hne hreg,
          rfl, rfl⟩
    have hkeys' : s'.db.map Prod.fst = s.db.map Prod.fst := by rw [hdb']
    set keys := s.db.map Prod.fst with hkeys
    set r := scanLoop (globMatch pattern) count (keys.drop i) 0 with hr
    have hdec := scanLoop_decomp (globMatch pattern) count (keys.drop i) 0
    by_cases hend : i + r.2 < keys.length
    · -- a new cursor is created; the chain continues from i + r.2
      have hi_lt : i < keys.length := by omega
      obtain ⟨hd, tl, hdrop⟩ : ∃ hd tl, keys.drop i = hd :: tl := by
        cases hdk : keys.drop i with
        | nil =>
          have := List.drop_eq_nil_iff_le.mp hdk
          omega
        | cons hd tl => exact ⟨hd, tl, rfl⟩
      have hr1 : 1 ≤ r.2 := by
        have := scanLoop_progress (globMatch pattern) count hd tl 0 (by omega)
        rw [← hdrop] at this
        rw [hr]
        exact this
      have hpos2 : 0 < i + r.2 := by omega
      have hscanFrom := scanFrom_pos s' i pattern count (by
        rw [hkeys']; exact hend)
      rw [hkeys'] at hscanFrom
      rw [← hr] at hscanFrom
      rw [show scanChain pattern count (fuel + 1) s cursor
            = (let rr := storeScan s cursor pattern count;
               if rr.2.nextCursor = 0 then some rr.2.keys
               else (scanChain pattern count fuel rr.1
                  (rr.2.nextCursor : Int)).map (rr.2.keys ++ ·)) from rfl]
      rw [hscan, hscanFrom]
      dsimp only
      rw [if_neg (by omega : ¬ s'.nextCursorId = 0)]
      have hih := ih ({ s' with
          scanCursors := aset s'.scanCursors s'.nextCursorId
            ⟨i + r.2,
             (if i + r.2 = 0 then none else keys.get? (i + r.2 - 1)), pattern, 0⟩,
          nextCursorId := s'.nextCursorId + 1 })
        (s'.nextCursorId : Int) (i + r.2)
        (by rw [show ({ s' with
            scanCursors := aset s'.scanCursors s'.nextCursorId
              ⟨i + r.2,
               (if i + r.2 = 0 then none else keys.get? (i + r.2 - 1)), pattern, 0⟩,
            nextCursorId := s'.nextCursorId + 1 } : StoreState).db = s'.db from rfl,
          hdb']; exact hnd)
        (by rw [show ({ s' with
            scanCursors := aset s'.scanCursors s'.nextCursorId
              ⟨i + r.2,
               (if i + r.2 = 0 then none else keys.get? (i + r.2 - 1)), pattern, 0⟩,
            nextCursorId := s'.nextCursorId + 1 } : StoreState).db = s'.db from rfl,
          hdb']; exact hne)
        (by simp only []; omega)
        (by
          right
          refine ⟨by omega, hpos2, ?_, pattern, 0, ?_⟩
          · show i + r.2 ≤ (s'.db.map Prod.fst).length
            rw [hkeys']
            omega
          · rw [show ((s'.nextCursorId : Int)).toNat = s'.nextCursorId from by omega]
            rw [show ({ s' with
                scanCursors := aset s'.scanCursors s'.nextCursorId
                  ⟨i + r.2,
                   (if i + r.2 = 0 then none else keys.get? (i + r.2 - 1)), pattern, 0⟩,
                nextCursorId := s'.nextCursorId + 1 } : StoreState).scanCursors
              = aset s'.scanCursors s'.nextCursorId
                  ⟨i + r.2,
                   (if i + r.2 = 0 then none else keys.get? (i + r.2 - 1)), pattern, 0⟩
              from rfl]
            rw [alookup_aset_self]
            rw [if_neg (by omega : ¬ i + r.2 = 0)]
            rw [show ({ s' with
                scanCursors := aset s'.scanCursors s'.nextCursorId
                  ⟨i + r.2, keys.get? (i + r.2 - 1), pattern, 0⟩,
                nextCursorId := s'.nextCursorId + 1 } : StoreState).db = s'.db from rfl]
            rw [hkeys'])
        (by
          rw [show ({ s' with
              scanCursors := aset s'.scanCursors s'.nextCursorId
                ⟨i + r.2,
                 (if i + r.2 = 0 then none else keys.get? (i + r.2 - 1)), pattern, 0⟩,
              nextCursorId := s'.nextCursorId + 1 } : StoreState).db = s'.db from rfl,
            hdb', ← hkeys]
          omega)
      rw [hih]
      rw [show ({ s' with
          scanCursors := aset s'.scanCursors s'.nextCursorId
            ⟨i + r.2,
             (if i + r.2 = 0 then none else keys.get? (i + r.2 - 1)), pattern, 0⟩,
          nextCursorId := s'.nextCursorId + 1 } : StoreState).db = s'.db from rfl,
        hdb', ← hkeys]
      rw [Option.map_some']
      congr 1
      rw [show (keys.drop i).drop r.2 = keys.drop (i + r.2) from by
        rw [List.drop_drop]] at hdec
      exact hdec.1
    · -- the snapshot is exhausted: the returned cursor is 0
      have hscanFrom := scanFrom_neg s' i pattern count (by rw [hkeys']; exact hend)
      rw [hkeys'] at hscanFrom
      rw [← hr] at hscanFrom
      rw [show scanChain pattern count (fuel + 1) s cursor
            = (let rr := storeScan s cursor pattern count;
               if rr.2.nextCursor = 0 then some rr.2.keys
               else (scanChain pattern count fuel rr.1
                  (rr.2.nextCursor : Int)).map (rr.2.keys ++ ·)) from rfl]
      rw [hscan, hscanFrom]
      dsimp only
      rw [if_pos rfl]
      congr 1
      have hdrop : (keys.drop i).drop r.2 = [] := by
        apply List.drop_eq_nil_of_le
        simp only [List.length_drop]
        omega
      have := hdec.1
      rw [hdrop] at this
      simpa using this

/-- C4: scan completeness on a static keyspace. Starting from cursor 0 and
repeatedly calling SCAN with the cursor returned by the previous call until a
0 cursor comes back, the concatenation of the key pages is exactly the list of
keys matching the pattern: no matching key is missed (here, with a keyspace
that does not change between calls, each key is in fact visited exactly once).
Hypotheses mirror the deployment: COUNT is at least 1 (the handler substitutes
10 for anything smaller), LMDB keys are distinct and non-empty (LMDB rejects
zero-length keys), and cursor ids start from 1 (Date.now-based in the source).
The fuel bound length+1 suffices because every round consumes at least one
key of the snapshot. -/
theorem scan_chain_visits_all_matching (pattern : String) (count : Int)
    (s : StoreState)
    (hc : 1 ≤ count)
    (hnd : (s.db.map Prod.fst).Nodup)
    (hne : ∀ k ∈ s.db.map Prod.fst, k ≠ "")
    (hid : 1 ≤ s.nextCursorId) :
    scanChain pattern count ((s.db.map Prod.fst).length + 1) s 0
      = some ((s.db.map Prod.fst).filter (globMatch pattern)) := by
  have h := scanChain_complete_from pattern count hc
    ((s.db.map Prod.fst).length + 1) s 0 0 hnd hne hid
    (Or.inl ⟨rfl, rfl⟩) (by omega)
  simpa using h

theorem scan_chain_visits_all_matching_witness :
    (1 : Int) ≤ 1 ∧
    ((([("a", "1"), ("b", "2")] : List (String × String)).map Prod.fst).Nodup) ∧
    scanChain "*" 1 3
      ⟨[("a", "1"), ("b", "2")], [], [], [], 1, []⟩ 0
      = some ((([("a", "1"), ("b", "2")] : List (String × String)).map
          Prod.fst).filter (globMatch "*")) :=
  ⟨by decide, by decide,
   scan_chain_visits_all_matching "*" 1
     ⟨[("a", "1"), ("b", "2")], [], [], [], 1, []⟩
     (by decide) (by decide) (by decide) (by decide)⟩

end RedisLmdb
